import Mathlib

/-!
# Verification of the devlab-store path-indexed reactive store

This development embeds the store engine of `src/index.tsx` (class
`CreateStateStore`) and the keyed-collection variant (class `CreateMapStore`)
as executable Lean definitions and proves the documented properties about
them.

Modelling conventions:
* JavaScript values are the inductive `Val`; the JavaScript `undefined` is
  `Option Val`'s `none` (so a field read yields `Option Val`).
* JavaScript `Map` / plain objects are insertion-ordered association lists;
  `Set` is a duplicate-free list in insertion order.
* Subscriber callbacks are inert identifiers (`Nat`); an operation returns
  the list of callback identifiers invoked, in invocation order.
* Property assignment through a non-object value is modelled as leaving the
  tree unchanged (at runtime JavaScript would throw a `TypeError` or
  silently drop the write, depending on strictness; no theorem below
  exercises that corner).
-/

set_option autoImplicit false

namespace DevlabStore

/-- A JavaScript value: `null`, booleans, numbers, strings and plain objects
(insertion-ordered string-keyed records). `undefined` is represented by
`Option Val = none` at use sites. -/
inductive Val where
  | vnull : Val
  | vbool : Bool → Val
  | vnum : Int → Val
  | vstr : String → Val
  | vobj : List (String × Val) → Val

/-- First-match association-list lookup (JavaScript object property read /
`Map.prototype.get`). -/
def alookup {β : Type} : List (String × β) → String → Option β
  | [], _ => none
  | (k, v) :: rest, key => if k = key then some v else alookup rest key

/-- JavaScript property read `v[k]`: a key lookup on objects, `undefined` on
every non-object (primitives have no own string-keyed data properties here). -/
def Val.index : Val → String → Option Val
  | .vobj fields, k => alookup fields k
  | _, _ => none

/-- JavaScript truthiness of a defined value. -/
def truthyV : Val → Bool
  | .vnull => false
  | .vbool b => b
  | .vnum n => n ≠ 0
  | .vstr s => s ≠ ""
  | .vobj _ => true

/-- JavaScript truthiness of a possibly-`undefined` value. -/
def truthyO : Option Val → Bool
  | none => false
  | some v => truthyV v

/-- JavaScript assignment `v[k] = w` on an object: overwrite the existing
entry in place (keeping its position) or append a new entry; on a non-object
the tree is left unchanged (see the module comment). -/
def Val.setKey : Val → String → Val → Val
  | .vobj fields, k, w =>
    if (alookup fields k).isSome then
      .vobj (fields.map fun e => if e.1 = k then (e.1, w) else e)
    else
      .vobj (fields ++ [(k, w)])
  | v, _, _ => v

/-- JavaScript `delete v[k]`: remove the entry from an object; no effect on a
non-object. -/
def Val.removeKey : Val → String → Val
  | .vobj fields, k => .vobj (fields.filter fun e => ¬ e.1 = k)
  | v, _ => v

mutual

/-- `deepClone` from `src/index.tsx`: structural copy of a value (entry by
entry for objects, identity on primitives). -/
def deepClone : Val → Val
  | .vnull => .vnull
  | .vbool b => .vbool b
  | .vnum n => .vnum n
  | .vstr s => .vstr s
  | .vobj fields => .vobj (deepCloneFields fields)

/-- Entry-wise clone of an object's field list (helper of `deepClone`). -/
def deepCloneFields : List (String × Val) → List (String × Val)
  | [] => []
  | (k, v) :: rest => (k, deepClone v) :: deepCloneFields rest

end

mutual

/-- Cloning is extensionally the identity: our `Val` has value semantics, so
the structural-independence that `deepClone` buys in JavaScript is invisible
here. -/
theorem deepClone_eq : ∀ (v : Val), deepClone v = v
  | .vnull => rfl
  | .vbool _ => rfl
  | .vnum _ => rfl
  | .vstr _ => rfl
  | .vobj fields => by rw [deepClone, deepCloneFields_eq fields]

/-- Field-list counterpart of `deepClone_eq`. -/
theorem deepCloneFields_eq : ∀ (l : List (String × Val)), deepCloneFields l = l
  | [] => rfl
  | (k, v) :: rest => by
    rw [deepCloneFields, deepClone_eq v, deepCloneFields_eq rest]

end

/-! ## Path resolver -/

/-- Helper of `splitDots`: scan the characters, cutting at `'.'`. -/
def splitDotsAux : List Char → List Char → List (List Char)
  | [], acc => [acc.reverse]
  | c :: cs, acc =>
    if c = '.' then acc.reverse :: splitDotsAux cs [] else splitDotsAux cs (c :: acc)

/-- JavaScript `path.split('.')`: the (always nonempty) list of dot-separated
segments of a path string. -/
def splitDots (s : String) : List String :=
  (splitDotsAux s.data []).map String.mk

/-- Helper of `allPathsOf`: remaining prefix strings, extending `acc` with
`"." ++ key` at each step (the `reduce` in `getCachedPath`). -/
def allPathsAux (acc : String) : List String → List String
  | [] => []
  | k :: ks =>
    let nxt := acc ++ "." ++ k
    nxt :: allPathsAux nxt ks

/-- The `allPaths` accumulator of `getCachedPath`: every nonempty dot-joined
prefix of the segment list, the full path last. -/
def allPathsOf : List String → List String
  | [] => []
  | k :: ks => k :: allPathsAux k ks

/-- The parsed-path record computed (and cached) by `getCachedPath`. -/
structure PathRec where
  parentKeys : List String
  parentPaths : List String
  currentKey : String
deriving Repr, DecidableEq

/-- The pure content of `CreateStateStore.getCachedPath` for a path string:
`parentKeys` is every segment but the last, `parentPaths` the strictly-shorter
joined prefixes, `currentKey` the last segment. -/
def purePathRec (path : String) : PathRec :=
  let keys := splitDots path
  let ap := allPathsOf keys
  { parentKeys := keys.dropLast
    parentPaths := if ap.length > 1 then ap.dropLast else []
    currentKey := keys.getLastD "" }

/-! ## Property locator -/

/-- One step of the fallback/initial walks in `getCachedProperty`: advance by
indexing only while the value is defined and non-null, otherwise stay put. -/
def advOpt (o : Option Val) (k : String) : Option Val :=
  match o with
  | none => none
  | some .vnull => some .vnull
  | some v => v.index k

/-- The three parallel walks of `CreateStateStore.getCachedProperty`: walk
`parentKeys` through the live tree, the fallback tree and the initial
snapshot.  The loop `break`s — for all three walks — as soon as the live-tree
value is `undefined` or `null` at the start of an iteration. -/
def walk3 : List String → Option Val → Option Val → Option Val →
    Option Val × Option Val × Option Val
  | [], p, f, i => (p, f, i)
  | k :: ks, p, f, i =>
    match p with
    | none => (none, f, i)
    | some .vnull => (none, f, i)
    | some v => walk3 ks (v.index k) (advOpt f k) (advOpt i k)

/-- Plain repeated indexing of a tree by a segment list ("the tree's value at
this path"): `undefined` as soon as a step is missing. -/
def resolvePath : Val → List String → Option Val
  | v, [] => some v
  | v, k :: ks =>
    match v.index k with
    | none => none
    | some c => resolvePath c ks

/-- The live-tree component of `walk3`, as a standalone chain (`undefined` and
`null` both collapse to `undefined` once a further step is taken). -/
def optChain : Option Val → List String → Option Val
  | p, [] => p
  | p, k :: ks =>
    match p with
    | none => none
    | some .vnull => none
    | some v => optChain (v.index k) ks

/-- The fallback/initial component of `walk3` when the live walk never breaks:
a chain of `advOpt` steps. -/
def advChain : Option Val → List String → Option Val
  | f, [] => f
  | f, k :: ks => advChain (advOpt f k) ks

/-- `true` when the live walk of `walk3` never hits its `break`: at each step
the live value is still defined and non-null. -/
def pAlive : Option Val → List String → Bool
  | _, [] => true
  | p, k :: ks =>
    match p with
    | none => false
    | some .vnull => false
    | some v => pAlive (v.index k) ks

/-- `v[k] && ...`-style guarded read in `get`: `parentProp && parentProp[k]`
evaluates to `parentProp` itself when falsy, and to the indexed value
otherwise. -/
def jsAndIndex (o : Option Val) (k : String) : Option Val :=
  match o with
  | none => none
  | some v => if truthyV v then v.index k else some v

/-! ## The single-object store (`CreateStateStore`) -/

/-- The per-instance state of a `CreateStateStore`: the live tree, the two
frozen trees, the three caches and the subscriber registry.  Subscriber sets
are duplicate-free lists in insertion order; callbackss are identifiers. -/
structure StateStore where
  data : Val
  initialData : Val
  fallbackData : Val
  pathCache : List (String × PathRec)
  propertyCache : List (String × (Option Val × Option Val × Option Val))
  dependencyCache : List (String × List String)
  subscribers : List (String × List Nat)

/-- `x || {}` applied to an optional constructor argument: any falsy (or
missing) value is replaced by an empty object. -/
def jsOrObj (o : Option Val) : Val :=
  match o with
  | none => .vobj []
  | some v => if truthyV v then v else .vobj []

/-- The `CreateStateStore` constructor: deep-clone the initial data into both
the live tree and the snapshot, deep-clone the fallback, start with empty
caches and registry. -/
def mkStore (init fb : Option Val) : StateStore :=
  { data := deepClone (jsOrObj init)
    initialData := deepClone (jsOrObj init)
    fallbackData := deepClone (jsOrObj fb)
    pathCache := []
    propertyCache := []
    dependencyCache := []
    subscribers := [] }

/-- `Set.prototype.add`: append if not already present. -/
def setAdd (l : List Nat) (c : Nat) : List Nat :=
  if c ∈ l then l else l ++ [c]

/-- Register `path` in the dependency set of `parentPath` (creating the set on
first use), as `getCachedPath` does for each proper prefix. -/
def addDep (dc : List (String × List String)) (parentPath path : String) :
    List (String × List String) :=
  match alookup dc parentPath with
  | none => dc ++ [(parentPath, [path])]
  | some _ =>
    dc.map fun e =>
      if e.1 = parentPath then (e.1, if path ∈ e.2 then e.2 else e.2 ++ [path]) else e

/-- Register `path` under every one of its proper prefixes. -/
def registerDeps (dc : List (String × List String)) (pps : List String)
    (path : String) : List (String × List String) :=
  match pps with
  | [] => dc
  | pp :: rest => registerDeps (addDep dc pp path) rest path

/-- `CreateStateStore.getCachedPath` (with the default `flush = false`): a
cache hit returns the stored record with no side effect; a miss computes the
record, stores it, and registers the path in the Dependency Index under each
proper prefix. -/
def getCachedPathS (s : StateStore) (path : String) : StateStore × PathRec :=
  match alookup s.pathCache path with
  | some r => (s, r)
  | none =>
    let r := purePathRec path
    ({ s with
        pathCache := s.pathCache ++ [(path, r)]
        dependencyCache := registerDeps s.dependencyCache r.parentPaths path }, r)

/-- `CreateStateStore.getCachedProperty` (with the default `flush = false`):
a stored entry would be returned as-is, but nothing ever stores one, so the
three containers are recomputed by `walk3` on every call. -/
def getCachedPropertyS (s : StateStore) (path : String) :
    StateStore × (Option Val × Option Val × Option Val) :=
  match alookup s.propertyCache path with
  | some info => (s, info)
  | none =>
    let a := getCachedPathS s path
    (a.1, walk3 a.2.parentKeys (some a.1.data) (some a.1.fallbackData) (some a.1.initialData))

/-- The callbacks currently subscribed to `path` (empty when unregistered). -/
def subsOf (s : StateStore) (path : String) : List Nat :=
  (alookup s.subscribers path).getD []

/-- `notifySubscribers`: the invocation list for one path. -/
def notifySubs (s : StateStore) (path : String) : List Nat :=
  subsOf s path

/-- `notifyNestedSubscribers`: notify the path itself, then every cached
proper-ancestor path; resolves the path first (with its caching side
effect). -/
def notifyNested (s : StateStore) (path : String) : StateStore × List Nat :=
  let a := getCachedPathS s path
  (a.1, notifySubs a.1 path ++ a.2.parentPaths.flatMap (notifySubs a.1))

/-- `notifyDependencies`: notify the subscribers of every path registered as a
descendant of `path` in the Dependency Index. -/
def notifyDeps (s : StateStore) (path : String) : List Nat :=
  ((alookup s.dependencyCache path).getD []).flatMap (notifySubs s)

/-- `addSubscriber`. -/
def addSubscriberS (s : StateStore) (path : String) (c : Nat) : StateStore :=
  { s with
      subscribers :=
        match alookup s.subscribers path with
        | none => s.subscribers ++ [(path, [c])]
        | some _ =>
          s.subscribers.map fun e => if e.1 = path then (e.1, setAdd e.2 c) else e }

/-- `removeSubscriber`: drop the callback from the path's set, and drop the
whole entry when the set becomes empty. -/
def removeSubscriberS (s : StateStore) (path : String) (c : Nat) : StateStore :=
  { s with
      subscribers :=
        match alookup s.subscribers path with
        | none => s.subscribers
        | some l =>
          if l.erase c = [] then
            s.subscribers.filter fun e => ¬ e.1 = path
          else
            s.subscribers.map fun e => if e.1 = path then (e.1, e.2.erase c) else e }

/-- In-place write one level above the final key: descend `ks` through the
live tree (every step exists and is an object whenever this branch of `set`
runs) and rewrite the container found there with `f`. -/
def writeAt (root : Val) : List String → (Val → Val) → Val
  | [], f => f root
  | k :: ks, f =>
    match root with
    | .vobj fields => .vobj (fields.map fun e => if e.1 = k then (e.1, writeAt e.2 ks f) else e)
    | v => v

/-- The materialization loop of `CreateStateStore.set`: starting from the
root, create an empty object at each missing key of `ks` and descend, then
assign `value` at `ck`.  Note that `set` passes `parentPaths` (the joined
prefix strings) as `ks`. -/
def matAssign (root : Val) : List String → String → Val → Val
  | [], ck, value => root.setKey ck value
  | k :: ks, ck, value =>
    match root with
    | .vobj fields =>
      match alookup fields k with
      | none => .vobj (fields ++ [(k, matAssign (.vobj []) ks ck value)])
      | some child => .vobj (fields.map fun e => if e.1 = k then (e.1, matAssign child ks ck value) else e)
    | v => v

/-- `CreateStateStore.get`: resolve and locate, return the live value when it
is defined (`parentProp && parentProp[currentKey]`), otherwise the fallback
value (`fallbackProp && fallbackProp[currentKey]`).  Returns the updated store
(caching side effects) and the read result. -/
def StateStore.get (s : StateStore) (path : String) : StateStore × Option Val :=
  let a := getCachedPathS s path
  let b := getCachedPropertyS a.1 path
  let originalValue := jsAndIndex b.2.1 a.2.currentKey
  if originalValue.isSome then (b.1, originalValue)
  else (b.1, jsAndIndex b.2.2.1 a.2.currentKey)

/-- The notification block shared by `set`/`update`/`remove` when
`notify = true`: `notifyNestedSubscribers` then `notifyDependencies`. -/
def notifyAll (s : StateStore) (path : String) : StateStore × List Nat :=
  let a := notifyNested s path
  (a.1, a.2 ++ notifyDeps a.1 path)

/-- `CreateStateStore.set`: when the located parent container is falsy,
materialize from the root — iterating over `parentPaths`, the joined prefix
strings, exactly as the source does — and assign at the final key; otherwise
assign into the located parent container.  Then notify if requested.  Returns
the updated store and the list of invoked callbacks. -/
def StateStore.set (s : StateStore) (path : String) (value : Val) (notify : Bool) :
    StateStore × List Nat :=
  let a := getCachedPathS s path
  let b := getCachedPropertyS a.1 path
  let s3 :=
    if truthyO b.2.1 then
      { b.1 with data := writeAt b.1.data a.2.parentKeys (fun parent => parent.setKey a.2.currentKey value) }
    else
      { b.1 with data := matAssign b.1.data a.2.parentPaths a.2.currentKey value }
  if notify then notifyAll s3 path else (s3, [])

/-- `CreateStateStore.update` with a plain replacement value: a no-op when the
located parent container is falsy; never materializes. -/
def StateStore.updateV (s : StateStore) (path : String) (value : Val) (notify : Bool) :
    StateStore × List Nat :=
  let a := getCachedPathS s path
  let b := getCachedPropertyS a.1 path
  if truthyO b.2.1 then
    let s3 := { b.1 with data := writeAt b.1.data a.2.parentKeys (fun parent => parent.setKey a.2.currentKey value) }
    if notify then notifyAll s3 path else (s3, [])
  else (b.1, [])

/-- `CreateStateStore.update` with a transformation function: the function
receives the (possibly undefined) current slot value. -/
def StateStore.updateF (s : StateStore) (path : String) (g : Option Val → Val) (notify : Bool) :
    StateStore × List Nat :=
  let a := getCachedPathS s path
  let b := getCachedPropertyS a.1 path
  if truthyO b.2.1 then
    let s3 :=
      { b.1 with
          data :=
            writeAt b.1.data a.2.parentKeys
              (fun parent => parent.setKey a.2.currentKey (g (parent.index a.2.currentKey))) }
    if notify then notifyAll s3 path else (s3, [])
  else (b.1, [])

/-- `CreateStateStore.remove`: a no-op when the located parent container is
falsy; otherwise delete the final key from it. -/
def StateStore.remove (s : StateStore) (path : String) (notify : Bool) :
    StateStore × List Nat :=
  let a := getCachedPathS s path
  let b := getCachedPropertyS a.1 path
  if truthyO b.2.1 then
    let s3 := { b.1 with data := writeAt b.1.data a.2.parentKeys (fun parent => parent.removeKey a.2.currentKey) }
    if notify then notifyAll s3 path else (s3, [])
  else (b.1, [])

/-- `CreateStateStore.reset`: replace the live tree with a fresh deep copy of
the initial snapshot; on notify, walk the whole registry (insertion order)
and invoke every subscriber of every currently-subscribed path. -/
def StateStore.reset (s : StateStore) (notify : Bool) : StateStore × List Nat :=
  let s1 := { s with data := deepClone s.initialData }
  if notify then (s1, s1.subscribers.flatMap fun e => notifySubs s1 e.1)
  else (s1, [])

/-! ## Operation sequences -/

/-- One public operation on a `CreateStateStore` (the `use` hook contributes
its subscribe/unsubscribe pair). -/
inductive Op where
  | oget (path : String)
  | oset (path : String) (value : Val) (notify : Bool)
  | oupdateV (path : String) (value : Val) (notify : Bool)
  | oupdateF (path : String) (g : Option Val → Val) (notify : Bool)
  | oremove (path : String) (notify : Bool)
  | oreset (notify : Bool)
  | osub (path : String) (c : Nat)
  | ounsub (path : String) (c : Nat)

/-- Run one operation, returning the new store and the invoked callbacks. -/
def applyOp (s : StateStore) : Op → StateStore × List Nat
  | .oget path => ((StateStore.get s path).1, [])
  | .oset path v n => StateStore.set s path v n
  | .oupdateV path v n => StateStore.updateV s path v n
  | .oupdateF path g n => StateStore.updateF s path g n
  | .oremove path n => StateStore.remove s path n
  | .oreset n => StateStore.reset s n
  | .osub path c => (addSubscriberS s path c, [])
  | .ounsub path c => (removeSubscriberS s path c, [])

/-- Run a sequence of operations, concatenating the invocation lists. -/
def applyOps (s : StateStore) : List Op → StateStore × List Nat
  | [] => (s, [])
  | op :: ops =>
    let a := applyOp s op
    let b := applyOps a.1 ops
    (b.1, a.2 ++ b.2)

/-! ## Association-list lemmas -/

theorem alookup_mem {β : Type} :
    ∀ {l : List (String × β)} {k : String} {v : β}, alookup l k = some v → (k, v) ∈ l
  | [], _, _, h => by simp [alookup] at h
  | (k', v') :: rest, k, v, h => by
    by_cases hk : k' = k
    · subst hk
      simp [alookup] at h
      simp [h]
    · simp [alookup, hk] at h
      exact List.mem_cons_of_mem _ (alookup_mem h)

theorem alookup_append {β : Type} (l₁ l₂ : List (String × β)) (k : String) :
    alookup (l₁ ++ l₂) k =
      match alookup l₁ k with
      | some v => some v
      | none => alookup l₂ k := by
  induction l₁ with
  | nil => simp [alookup]
  | cons e rest ih =>
    by_cases hk : e.1 = k
    · simp [alookup, hk]
    · simpa [alookup, hk] using ih

theorem alookup_mapAt {β : Type} (l : List (String × β)) (p k : String) (g : β → β) :
    alookup (l.map fun e => if e.1 = p then (e.1, g e.2) else e) k =
      if k = p then (alookup l k).map g else alookup l k := by
  induction l with
  | nil => simp [alookup]
  | cons e rest ih =>
    obtain ⟨k', v'⟩ := e
    simp only [List.map_cons]
    by_cases he : k' = p
    · subst he
      simp only [if_pos rfl]
      by_cases hk : k' = k
      · subst hk
        simp [alookup]
      · have hk2 : ¬ k = k' := fun h => hk h.symm
        simp [alookup, hk, hk2, ih]
    · simp only [if_neg he]
      by_cases hk : k' = k
      · subst hk
        have hk2 : ¬ k' = p := he
        simp [alookup, hk2]
      · have hk2 : ¬ k = k' := fun h => hk h.symm
        simp [alookup, hk, hk2, ih]

theorem alookup_filter_self {β : Type} (l : List (String × β)) (p : String) :
    alookup (l.filter fun e => ¬ e.1 = p) p = none := by
  induction l with
  | nil => rfl
  | cons e rest ih =>
    by_cases he : e.1 = p
    · rw [List.filter_cons, if_neg (by simp [he])]
      exact ih
    · rw [List.filter_cons, if_pos (by simp [he])]
      simpa [alookup, he] using ih

theorem alookup_of_mem_nodupKeys {β : Type} :
    ∀ {l : List (String × β)} {k : String} {v : β},
      (l.map Prod.fst).Nodup → (k, v) ∈ l → alookup l k = some v
  | [], _, _, _, h => by simp at h
  | (k', v') :: rest, k, v, hnd, h => by
    rcases List.mem_cons.mp h with h | h
    · cases h
      simp [alookup]
    · have hk : ¬ k' = k := by
        intro hk
        subst hk
        have : k' ∈ rest.map Prod.fst := List.mem_map.mpr ⟨(k', v), h, rfl⟩
        exact (List.nodup_cons.mp hnd).1 this
      simp only [alookup, if_neg hk]
      exact alookup_of_mem_nodupKeys (List.nodup_cons.mp hnd).2 h

/-! ## Cache hygiene -/

/-- Every cached parsed-path record is the pure parse of its key.  This holds
in every reachable store (parsing is a pure function of the path string); the
theorems below take it as a hypothesis where a cached record is consulted. -/
def PathCacheOK (s : StateStore) : Prop :=
  ∀ e ∈ s.pathCache, e.2 = purePathRec e.1

theorem pathCacheOK_mk (i f : Option Val) : PathCacheOK (mkStore i f) := by
  intro e he
  simp [mkStore] at he

theorem getCachedPathS_snd {s : StateStore} {path : String} (hok : PathCacheOK s) :
    (getCachedPathS s path).2 = purePathRec path := by
  unfold getCachedPathS
  cases h : alookup s.pathCache path with
  | none => rfl
  | some r => exact hok _ (alookup_mem h)

theorem pathCacheOK_getCachedPathS {s : StateStore} {path : String} (hok : PathCacheOK s) :
    PathCacheOK (getCachedPathS s path).1 := by
  unfold getCachedPathS
  cases h : alookup s.pathCache path with
  | none =>
    intro e he
    simp only [List.mem_append, List.mem_singleton] at he
    rcases he with he | he
    · exact hok _ he
    · simp [he]
  | some r => exact hok

theorem getCachedPathS_data (s : StateStore) (path : String) :
    (getCachedPathS s path).1.data = s.data := by
  unfold getCachedPathS
  cases alookup s.pathCache path <;> rfl

theorem getCachedPathS_initialData (s : StateStore) (path : String) :
    (getCachedPathS s path).1.initialData = s.initialData := by
  unfold getCachedPathS
  cases alookup s.pathCache path <;> rfl

theorem getCachedPathS_fallbackData (s : StateStore) (path : String) :
    (getCachedPathS s path).1.fallbackData = s.fallbackData := by
  unfold getCachedPathS
  cases alookup s.pathCache path <;> rfl

theorem getCachedPathS_propertyCache (s : StateStore) (path : String) :
    (getCachedPathS s path).1.propertyCache = s.propertyCache := by
  unfold getCachedPathS
  cases alookup s.pathCache path <;> rfl

theorem getCachedPathS_subscribers (s : StateStore) (path : String) :
    (getCachedPathS s path).1.subscribers = s.subscribers := by
  unfold getCachedPathS
  cases alookup s.pathCache path <;> rfl

theorem getCachedPropertyS_fields (s : StateStore) (path : String) :
    (getCachedPropertyS s path).1.data = s.data ∧
    (getCachedPropertyS s path).1.initialData = s.initialData ∧
    (getCachedPropertyS s path).1.fallbackData = s.fallbackData ∧
    (getCachedPropertyS s path).1.propertyCache = s.propertyCache ∧
    (getCachedPropertyS s path).1.subscribers = s.subscribers := by
  unfold getCachedPropertyS
  cases alookup s.propertyCache path with
  | none =>
    exact ⟨getCachedPathS_data .., getCachedPathS_initialData ..,
      getCachedPathS_fallbackData .., getCachedPathS_propertyCache ..,
      getCachedPathS_subscribers ..⟩
  | some info => exact ⟨rfl, rfl, rfl, rfl, rfl⟩

theorem pathCacheOK_getCachedPropertyS {s : StateStore} {path : String}
    (hok : PathCacheOK s) : PathCacheOK (getCachedPropertyS s path).1 := by
  unfold getCachedPropertyS
  cases alookup s.propertyCache path with
  | none => exact pathCacheOK_getCachedPathS hok
  | some info => exact hok

theorem getCachedPropertyS_snd {s : StateStore} {path : String}
    (hprop : s.propertyCache = []) (hok : PathCacheOK s) :
    (getCachedPropertyS s path).2 =
      walk3 (purePathRec path).parentKeys (some s.data) (some s.fallbackData)
        (some s.initialData) := by
  unfold getCachedPropertyS
  rw [hprop]
  simp only [alookup]
  rw [getCachedPathS_snd hok, getCachedPathS_data, getCachedPathS_fallbackData,
    getCachedPathS_initialData]

/-! ## Dependency-index lemmas -/

/-- The dependency set recorded for a path (empty when absent). -/
def depsOf (s : StateStore) (path : String) : List String :=
  (alookup s.dependencyCache path).getD []

theorem addDep_mono {dc : List (String × List String)} {x r : String} (p q : String)
    (h : r ∈ (alookup dc x).getD []) :
    r ∈ (alookup (addDep dc p q) x).getD [] := by
  unfold addDep
  cases hd : alookup dc p with
  | none =>
    rw [alookup_append]
    cases hx : alookup dc x with
    | none => simp [hx] at h
    | some l => simpa [hx] using h
  | some l =>
    dsimp only
    rw [alookup_mapAt dc p x (fun d => if q ∈ d then d else d ++ [q])]
    by_cases hxp : x = p
    · subst hxp
      cases hx : alookup dc x with
      | none => simp [hx] at h
      | some l' =>
        rw [hx] at h
        by_cases hq : q ∈ l' <;> simp [hq, Option.getD] <;>
          simp [Option.getD] at h <;> simp [h]
    · simpa [hxp] using h

theorem addDep_self (dc : List (String × List String)) (p q : String) :
    q ∈ (alookup (addDep dc p q) p).getD [] := by
  unfold addDep
  cases hd : alookup dc p with
  | none =>
    rw [alookup_append, hd]
    simp [alookup]
  | some l =>
    dsimp only
    rw [alookup_mapAt dc p p (fun d => if q ∈ d then d else d ++ [q]), if_pos rfl, hd]
    by_cases hq : q ∈ l <;> simp [hq]

theorem registerDeps_mono {x r q : String} :
    ∀ (pps : List String) (dc : List (String × List String)),
      r ∈ (alookup dc x).getD [] → r ∈ (alookup (registerDeps dc pps q) x).getD []
  | [], _, h => h
  | pp :: rest, dc, h =>
    registerDeps_mono rest (addDep dc pp q) (addDep_mono pp q h)

theorem registerDeps_adds {p q : String} :
    ∀ (pps : List String) (dc : List (String × List String)),
      p ∈ pps → q ∈ (alookup (registerDeps dc pps q) p).getD []
  | [], _, h => by simp at h
  | pp :: rest, dc, h => by
    rcases List.mem_cons.mp h with h | h
    · subst h
      exact registerDeps_mono rest (addDep dc p q) (addDep_self dc p q)
    · exact registerDeps_adds rest (addDep dc pp q) h

theorem depsOf_getCachedPathS_mono {s : StateStore} {x r : String} (path : String)
    (h : r ∈ depsOf s x) : r ∈ depsOf (getCachedPathS s path).1 x := by
  unfold getCachedPathS
  cases alookup s.pathCache path with
  | some _ => exact h
  | none => exact registerDeps_mono _ _ h

theorem depsOf_getCachedPropertyS_mono {s : StateStore} {x r : String} (path : String)
    (h : r ∈ depsOf s x) : r ∈ depsOf (getCachedPropertyS s path).1 x := by
  unfold getCachedPropertyS
  cases alookup s.propertyCache path with
  | some _ => exact h
  | none => exact depsOf_getCachedPathS_mono path h

theorem depsOf_getCachedPathS_fresh {s : StateStore} {P Q : String}
    (hfresh : alookup s.pathCache Q = none)
    (hPQ : P ∈ (purePathRec Q).parentPaths) :
    Q ∈ depsOf (getCachedPathS s Q).1 P := by
  unfold getCachedPathS
  rw [hfresh]
  exact registerDeps_adds _ _ hPQ

/-! ## Walk lemmas -/

theorem walk3_fst : ∀ (ks : List String) (p f i : Option Val),
    (walk3 ks p f i).1 = optChain p ks
  | [], _, _, _ => rfl
  | _ :: _, none, _, _ => rfl
  | _ :: _, some .vnull, _, _ => rfl
  | _ :: ks, some (.vbool _), _, _ => walk3_fst ks _ _ _
  | _ :: ks, some (.vnum _), _, _ => walk3_fst ks _ _ _
  | _ :: ks, some (.vstr _), _, _ => walk3_fst ks _ _ _
  | _ :: ks, some (.vobj _), _, _ => walk3_fst ks _ _ _

theorem optChain_resolve : ∀ (ks : List String) (d : Val),
    optChain (some d) ks = resolvePath d ks
  | [], _ => rfl
  | k :: ks, .vnull => by simp [optChain, resolvePath, Val.index]
  | k :: ks, .vbool b => by
    simp only [optChain, resolvePath, Val.index]
    cases ks <;> rfl
  | k :: ks, .vnum n => by
    simp only [optChain, resolvePath, Val.index]
    cases ks <;> rfl
  | k :: ks, .vstr s => by
    simp only [optChain, resolvePath, Val.index]
    cases ks <;> rfl
  | k :: ks, .vobj l => by
    simp only [optChain, resolvePath, Val.index]
    cases h : alookup l k with
    | none => cases ks <;> rfl
    | some c => exact optChain_resolve ks c

theorem walk3_snd_of_alive : ∀ (ks : List String) (p f i : Option Val),
    pAlive p ks = true → (walk3 ks p f i).2.1 = advChain f ks
  | [], _, _, _, _ => rfl
  | _ :: _, none, _, _, h => by simp [pAlive] at h
  | _ :: _, some .vnull, _, _, h => by simp [pAlive] at h
  | _ :: ks, some (.vbool _), _, _, h => walk3_snd_of_alive ks _ _ _ h
  | _ :: ks, some (.vnum _), _, _, h => walk3_snd_of_alive ks _ _ _ h
  | _ :: ks, some (.vstr _), _, _, h => walk3_snd_of_alive ks _ _ _ h
  | _ :: ks, some (.vobj _), _, _, h => walk3_snd_of_alive ks _ _ _ h

theorem resolvePath_append (ks₁ : List String) :
    ∀ (d : Val) (ks₂ : List String),
      resolvePath d (ks₁ ++ ks₂) =
        match resolvePath d ks₁ with
        | none => none
        | some c => resolvePath c ks₂ := by
  induction ks₁ with
  | nil => intro d ks₂; rfl
  | cons k ks ih =>
    intro d ks₂
    simp only [List.cons_append, resolvePath]
    cases d.index k with
    | none => rfl
    | some c => exact ih c ks₂

theorem advChain_of_resolve :
    ∀ (ks : List String) (fb c : Val), resolvePath fb ks = some c →
      advChain (some fb) ks = some c
  | [], fb, c, h => h
  | k :: ks, fb, c, h => by
    simp only [resolvePath] at h
    cases hi : fb.index k with
    | none => rw [hi] at h; exact absurd h (by simp)
    | some c' =>
      rw [hi] at h
      have hfb : advOpt (some fb) k = some c' := by
        cases fb with
        | vnull => simp [Val.index] at hi
        | vbool b => simpa [advOpt] using hi
        | vnum n => simpa [advOpt] using hi
        | vstr s => simpa [advOpt] using hi
        | vobj l => simpa [advOpt, Val.index] using hi
      simpa [advChain, hfb] using advChain_of_resolve ks c' c h

/-! ## Store-shape preservation -/

theorem notifyAll_fst (s : StateStore) (path : String) :
    (notifyAll s path).1 = (getCachedPathS s path).1 := rfl

theorem getCachedPropertyS_data (s : StateStore) (path : String) :
    (getCachedPropertyS s path).1.data = s.data :=
  (getCachedPropertyS_fields s path).1

theorem getCachedPropertyS_initialData (s : StateStore) (path : String) :
    (getCachedPropertyS s path).1.initialData = s.initialData :=
  (getCachedPropertyS_fields s path).2.1

theorem getCachedPropertyS_fallbackData (s : StateStore) (path : String) :
    (getCachedPropertyS s path).1.fallbackData = s.fallbackData :=
  (getCachedPropertyS_fields s path).2.2.1

theorem getCachedPropertyS_propertyCache (s : StateStore) (path : String) :
    (getCachedPropertyS s path).1.propertyCache = s.propertyCache :=
  (getCachedPropertyS_fields s path).2.2.2.1

theorem getCachedPropertyS_subscribers (s : StateStore) (path : String) :
    (getCachedPropertyS s path).1.subscribers = s.subscribers :=
  (getCachedPropertyS_fields s path).2.2.2.2

theorem set_shape (s : StateStore) (path : String) (value : Val) (notify : Bool) :
    (StateStore.set s path value notify).1.subscribers = s.subscribers ∧
    (StateStore.set s path value notify).1.initialData = s.initialData ∧
    (StateStore.set s path value notify).1.fallbackData = s.fallbackData ∧
    (StateStore.set s path value notify).1.propertyCache = s.propertyCache := by
  unfold StateStore.set
  cases notify <;>
    by_cases h : truthyO (getCachedPropertyS (getCachedPathS s path).1 path).2.1 <;>
      simp [h, notifyAll_fst, getCachedPathS_subscribers, getCachedPathS_initialData,
        getCachedPathS_fallbackData, getCachedPathS_propertyCache,
        getCachedPropertyS_subscribers, getCachedPropertyS_initialData,
        getCachedPropertyS_fallbackData, getCachedPropertyS_propertyCache]

theorem updateV_shape (s : StateStore) (path : String) (value : Val) (notify : Bool) :
    (StateStore.updateV s path value notify).1.subscribers = s.subscribers ∧
    (StateStore.updateV s path value notify).1.initialData = s.initialData ∧
    (StateStore.updateV s path value notify).1.fallbackData = s.fallbackData ∧
    (StateStore.updateV s path value notify).1.propertyCache = s.propertyCache := by
  unfold StateStore.updateV
  cases notify <;>
    by_cases h : truthyO (getCachedPropertyS (getCachedPathS s path).1 path).2.1 <;>
      simp [h, notifyAll_fst, getCachedPathS_subscribers, getCachedPathS_initialData,
        getCachedPathS_fallbackData, getCachedPathS_propertyCache,
        getCachedPropertyS_subscribers, getCachedPropertyS_initialData,
        getCachedPropertyS_fallbackData, getCachedPropertyS_propertyCache]

theorem updateF_shape (s : StateStore) (path : String) (g : Option Val → Val) (notify : Bool) :
    (StateStore.updateF s path g notify).1.subscribers = s.subscribers ∧
    (StateStore.updateF s path g notify).1.initialData = s.initialData ∧
    (StateStore.updateF s path g notify).1.fallbackData = s.fallbackData ∧
    (StateStore.updateF s path g notify).1.propertyCache = s.propertyCache := by
  unfold StateStore.updateF
  cases notify <;>
    by_cases h : truthyO (getCachedPropertyS (getCachedPathS s path).1 path).2.1 <;>
      simp [h, notifyAll_fst, getCachedPathS_subscribers, getCachedPathS_initialData,
        getCachedPathS_fallbackData, getCachedPathS_propertyCache,
        getCachedPropertyS_subscribers, getCachedPropertyS_initialData,
        getCachedPropertyS_fallbackData, getCachedPropertyS_propertyCache]

theorem remove_shape (s : StateStore) (path : String) (notify : Bool) :
    (StateStore.remove s path notify).1.subscribers = s.subscribers ∧
    (StateStore.remove s path notify).1.initialData = s.initialData ∧
    (StateStore.remove s path notify).1.fallbackData = s.fallbackData ∧
    (StateStore.remove s path notify).1.propertyCache = s.propertyCache := by
  unfold StateStore.remove
  cases notify <;>
    by_cases h : truthyO (getCachedPropertyS (getCachedPathS s path).1 path).2.1 <;>
      simp [h, notifyAll_fst, getCachedPathS_subscribers, getCachedPathS_initialData,
        getCachedPathS_fallbackData, getCachedPathS_propertyCache,
        getCachedPropertyS_subscribers, getCachedPropertyS_initialData,
        getCachedPropertyS_fallbackData, getCachedPropertyS_propertyCache]

theorem get_shape (s : StateStore) (path : String) :
    (StateStore.get s path).1.data = s.data ∧
    (StateStore.get s path).1.subscribers = s.subscribers ∧
    (StateStore.get s path).1.initialData = s.initialData ∧
    (StateStore.get s path).1.fallbackData = s.fallbackData ∧
    (StateStore.get s path).1.propertyCache = s.propertyCache := by
  unfold StateStore.get
  by_cases h : (jsAndIndex (getCachedPropertyS (getCachedPathS s path).1 path).2.1
      (getCachedPathS s path).2.currentKey).isSome <;>
    simp [h, getCachedPathS_data, getCachedPathS_subscribers, getCachedPathS_initialData,
      getCachedPathS_fallbackData, getCachedPathS_propertyCache,
      getCachedPropertyS_data, getCachedPropertyS_subscribers, getCachedPropertyS_initialData,
      getCachedPropertyS_fallbackData, getCachedPropertyS_propertyCache]

theorem reset_shape (s : StateStore) (notify : Bool) :
    (StateStore.reset s notify).1.subscribers = s.subscribers ∧
    (StateStore.reset s notify).1.initialData = s.initialData ∧
    (StateStore.reset s notify).1.fallbackData = s.fallbackData ∧
    (StateStore.reset s notify).1.propertyCache = s.propertyCache ∧
    (StateStore.reset s notify).1.pathCache = s.pathCache ∧
    (StateStore.reset s notify).1.data = deepClone s.initialData := by
  unfold StateStore.reset
  cases notify <;> simp

theorem addSubscriberS_shape (s : StateStore) (path : String) (c : Nat) :
    (addSubscriberS s path c).data = s.data ∧
    (addSubscriberS s path c).initialData = s.initialData ∧
    (addSubscriberS s path c).fallbackData = s.fallbackData ∧
    (addSubscriberS s path c).propertyCache = s.propertyCache ∧
    (addSubscriberS s path c).pathCache = s.pathCache ∧
    (addSubscriberS s path c).dependencyCache = s.dependencyCache := by
  unfold addSubscriberS
  cases alookup s.subscribers path <;> simp

theorem removeSubscriberS_shape (s : StateStore) (path : String) (c : Nat) :
    (removeSubscriberS s path c).data = s.data ∧
    (removeSubscriberS s path c).initialData = s.initialData ∧
    (removeSubscriberS s path c).fallbackData = s.fallbackData ∧
    (removeSubscriberS s path c).propertyCache = s.propertyCache ∧
    (removeSubscriberS s path c).pathCache = s.pathCache ∧
    (removeSubscriberS s path c).dependencyCache = s.dependencyCache := by
  unfold removeSubscriberS
  cases h : alookup s.subscribers path with
  | none => simp
  | some l => by_cases he : l.erase c = [] <;> simp [he]

theorem pathCacheOK_of_eq {s t : StateStore} (h : t.pathCache = s.pathCache)
    (hok : PathCacheOK s) : PathCacheOK t := by
  intro e he
  exact hok e (h ▸ he)

theorem pathCacheOK_notifyAll {s : StateStore} {path : String} (hok : PathCacheOK s) :
    PathCacheOK (notifyAll s path).1 := by
  rw [notifyAll_fst]
  exact pathCacheOK_getCachedPathS hok

theorem pathCacheOK_set {s : StateStore} {path : String} {value : Val} {notify : Bool}
    (hok : PathCacheOK s) : PathCacheOK (StateStore.set s path value notify).1 := by
  unfold StateStore.set
  have h1 := @pathCacheOK_getCachedPropertyS (getCachedPathS s path).1 path (@pathCacheOK_getCachedPathS s path hok)
  cases notify <;>
    by_cases h : truthyO (getCachedPropertyS (getCachedPathS s path).1 path).2.1 <;>
      simp only [h, if_pos, if_neg, Bool.false_eq_true, if_false, if_true]
  · exact pathCacheOK_of_eq rfl h1
  · exact pathCacheOK_of_eq rfl h1
  · exact pathCacheOK_notifyAll (pathCacheOK_of_eq rfl h1)
  · exact pathCacheOK_notifyAll (pathCacheOK_of_eq rfl h1)

theorem pathCacheOK_updateV {s : StateStore} {path : String} {value : Val} {notify : Bool}
    (hok : PathCacheOK s) : PathCacheOK (StateStore.updateV s path value notify).1 := by
  unfold StateStore.updateV
  have h1 := @pathCacheOK_getCachedPropertyS (getCachedPathS s path).1 path (@pathCacheOK_getCachedPathS s path hok)
  cases notify <;>
    by_cases h : truthyO (getCachedPropertyS (getCachedPathS s path).1 path).2.1 <;>
      simp only [h, Bool.false_eq_true, if_false, if_true]
  · exact pathCacheOK_of_eq rfl h1
  · exact h1
  · exact pathCacheOK_notifyAll (pathCacheOK_of_eq rfl h1)
  · exact h1

theorem pathCacheOK_updateF {s : StateStore} {path : String} {g : Option Val → Val}
    {notify : Bool} (hok : PathCacheOK s) :
    PathCacheOK (StateStore.updateF s path g notify).1 := by
  unfold StateStore.updateF
  have h1 := @pathCacheOK_getCachedPropertyS (getCachedPathS s path).1 path (@pathCacheOK_getCachedPathS s path hok)
  cases notify <;>
    by_cases h : truthyO (getCachedPropertyS (getCachedPathS s path).1 path).2.1 <;>
      simp only [h, Bool.false_eq_true, if_false, if_true]
  · exact pathCacheOK_of_eq rfl h1
  · exact h1
  · exact pathCacheOK_notifyAll (pathCacheOK_of_eq rfl h1)
  · exact h1

theorem pathCacheOK_remove {s : StateStore} {path : String} {notify : Bool}
    (hok : PathCacheOK s) : PathCacheOK (StateStore.remove s path notify).1 := by
  unfold StateStore.remove
  have h1 := @pathCacheOK_getCachedPropertyS (getCachedPathS s path).1 path (@pathCacheOK_getCachedPathS s path hok)
  cases notify <;>
    by_cases h : truthyO (getCachedPropertyS (getCachedPathS s path).1 path).2.1 <;>
      simp only [h, Bool.false_eq_true, if_false, if_true]
  · exact pathCacheOK_of_eq rfl h1
  · exact h1
  · exact pathCacheOK_notifyAll (pathCacheOK_of_eq rfl h1)
  · exact h1

theorem pathCacheOK_get {s : StateStore} {path : String} (hok : PathCacheOK s) :
    PathCacheOK (StateStore.get s path).1 := by
  unfold StateStore.get
  have h1 := @pathCacheOK_getCachedPropertyS (getCachedPathS s path).1 path (@pathCacheOK_getCachedPathS s path hok)
  by_cases h : (jsAndIndex (getCachedPropertyS (getCachedPathS s path).1 path).2.1
      (getCachedPathS s path).2.currentKey).isSome <;> simp only [h, if_false, if_true] <;>
    exact h1

theorem pathCacheOK_applyOp {s : StateStore} (op : Op) (hok : PathCacheOK s) :
    PathCacheOK (applyOp s op).1 := by
  cases op with
  | oget path => exact pathCacheOK_get hok
  | oset path v n => exact pathCacheOK_set hok
  | oupdateV path v n => exact pathCacheOK_updateV hok
  | oupdateF path g n => exact pathCacheOK_updateF hok
  | oremove path n => exact pathCacheOK_remove hok
  | oreset n => exact pathCacheOK_of_eq (reset_shape s n).2.2.2.2.1 hok
  | osub path c => exact pathCacheOK_of_eq (addSubscriberS_shape s path c).2.2.2.2.1 hok
  | ounsub path c => exact pathCacheOK_of_eq (removeSubscriberS_shape s path c).2.2.2.2.1 hok

theorem applyOp_frozen (s : StateStore) (op : Op) :
    (applyOp s op).1.initialData = s.initialData ∧
    (applyOp s op).1.fallbackData = s.fallbackData ∧
    (applyOp s op).1.propertyCache = s.propertyCache := by
  cases op with
  | oget path =>
    exact ⟨(get_shape s path).2.2.1, (get_shape s path).2.2.2.1, (get_shape s path).2.2.2.2⟩
  | oset path v n =>
    exact ⟨(set_shape s path v n).2.1, (set_shape s path v n).2.2.1, (set_shape s path v n).2.2.2⟩
  | oupdateV path v n =>
    exact ⟨(updateV_shape s path v n).2.1, (updateV_shape s path v n).2.2.1,
      (updateV_shape s path v n).2.2.2⟩
  | oupdateF path g n =>
    exact ⟨(updateF_shape s path g n).2.1, (updateF_shape s path g n).2.2.1,
      (updateF_shape s path g n).2.2.2⟩
  | oremove path n =>
    exact ⟨(remove_shape s path n).2.1, (remove_shape s path n).2.2.1,
      (remove_shape s path n).2.2.2⟩
  | oreset n =>
    exact ⟨(reset_shape s n).2.1, (reset_shape s n).2.2.1, (reset_shape s n).2.2.2.1⟩
  | osub path c =>
    exact ⟨(addSubscriberS_shape s path c).2.1, (addSubscriberS_shape s path c).2.2.1,
      (addSubscriberS_shape s path c).2.2.2.1⟩
  | ounsub path c =>
    exact ⟨(removeSubscriberS_shape s path c).2.1, (removeSubscriberS_shape s path c).2.2.1,
      (removeSubscriberS_shape s path c).2.2.2.1⟩

theorem applyOps_frozen : ∀ (ops : List Op) (s : StateStore),
    (applyOps s ops).1.initialData = s.initialData ∧
    (applyOps s ops).1.fallbackData = s.fallbackData ∧
    (applyOps s ops).1.propertyCache = s.propertyCache
  | [], s => ⟨rfl, rfl, rfl⟩
  | op :: ops, s => by
    have h1 := applyOp_frozen s op
    have h2 := applyOps_frozen ops (applyOp s op).1
    unfold applyOps
    exact ⟨h2.1.trans h1.1, h2.2.1.trans h1.2.1, h2.2.2.trans h1.2.2⟩

theorem pathCacheOK_applyOps : ∀ (ops : List Op) (s : StateStore),
    PathCacheOK s → PathCacheOK (applyOps s ops).1
  | [], _, hok => hok
  | op :: ops, s, hok => pathCacheOK_applyOps ops _ (pathCacheOK_applyOp op hok)

/-! ## Registered callbacks and invocation lists -/

/-- Every callback currently present in the subscriber registry. -/
def registered (s : StateStore) : List Nat :=
  s.subscribers.flatMap fun e => e.2

theorem registered_of_subsOf {s : StateStore} {p : String} {c : Nat}
    (h : c ∈ subsOf s p) : c ∈ registered s := by
  unfold subsOf at h
  cases hl : alookup s.subscribers p with
  | none => rw [hl] at h; simp at h
  | some l =>
    rw [hl] at h
    exact List.mem_flatMap.mpr ⟨(p, l), alookup_mem hl, h⟩

theorem registered_eq_of_subscribers {s t : StateStore}
    (h : t.subscribers = s.subscribers) : registered t = registered s := by
  unfold registered
  rw [h]

theorem subsOf_eq_of_subscribers {s t : StateStore}
    (h : t.subscribers = s.subscribers) (p : String) : subsOf t p = subsOf s p := by
  unfold subsOf
  rw [h]

theorem notifyAll_snd_registered {s : StateStore} {path : String} {c : Nat}
    (h : c ∈ (notifyAll s path).2) : c ∈ registered s := by
  unfold notifyAll notifyNested notifyDeps notifySubs at h
  have hsub := getCachedPathS_subscribers s path
  simp only [List.mem_append, List.mem_flatMap] at h
  rcases h with (h | ⟨q, _, h⟩) | ⟨q, _, h⟩ <;>
    exact registered_eq_of_subscribers hsub ▸ registered_of_subsOf h

theorem registered_cast {t : StateStore} (s : StateStore) {c : Nat}
    (hsub : t.subscribers = s.subscribers) (h : c ∈ registered t) : c ∈ registered s := by
  rw [← registered_eq_of_subscribers hsub]
  exact h

theorem applyOp_invoked_registered {s : StateStore} {op : Op} {c : Nat}
    (h : c ∈ (applyOp s op).2) : c ∈ registered s := by
  cases op with
  | oget path => simp [applyOp] at h
  | osub path c' => simp [applyOp] at h
  | ounsub path c' => simp [applyOp] at h
  | oreset n =>
    unfold applyOp StateStore.reset at h
    cases n with
    | false => simp at h
    | true =>
      simp only [if_true, List.mem_flatMap] at h
      obtain ⟨e, _, h⟩ := h
      exact registered_of_subsOf h
  | oset path v n =>
    unfold applyOp StateStore.set at h
    cases n with
    | false =>
      by_cases ht : truthyO (getCachedPropertyS (getCachedPathS s path).1 path).2.1 <;>
        simp [ht] at h
    | true =>
      by_cases ht : truthyO (getCachedPropertyS (getCachedPathS s path).1 path).2.1 <;>
        simp only [ht, Bool.false_eq_true, if_false, if_true] at h <;>
        · exact registered_cast s
            (by simp [getCachedPropertyS_subscribers, getCachedPathS_subscribers])
            (notifyAll_snd_registered h)
  | oupdateV path v n =>
    unfold applyOp StateStore.updateV at h
    by_cases ht : truthyO (getCachedPropertyS (getCachedPathS s path).1 path).2.1 <;>
      cases n <;> simp only [ht, Bool.false_eq_true, if_false, if_true] at h <;>
        first
          | simp at h
          | · exact registered_cast s
                (by simp [getCachedPropertyS_subscribers, getCachedPathS_subscribers])
                (notifyAll_snd_registered h)
  | oupdateF path g n =>
    unfold applyOp StateStore.updateF at h
    by_cases ht : truthyO (getCachedPropertyS (getCachedPathS s path).1 path).2.1 <;>
      cases n <;> simp only [ht, Bool.false_eq_true, if_false, if_true] at h <;>
        first
          | simp at h
          | · exact registered_cast s
                (by simp [getCachedPropertyS_subscribers, getCachedPathS_subscribers])
                (notifyAll_snd_registered h)
  | oremove path n =>
    unfold applyOp StateStore.remove at h
    by_cases ht : truthyO (getCachedPropertyS (getCachedPathS s path).1 path).2.1 <;>
      cases n <;> simp only [ht, Bool.false_eq_true, if_false, if_true] at h <;>
        first
          | simp at h
          | · exact registered_cast s
                (by simp [getCachedPropertyS_subscribers, getCachedPathS_subscribers])
                (notifyAll_snd_registered h)

/-- `true` exactly for the one operation that can register a callback. -/
def Op.addsSub : Op → Bool
  | .osub _ _ => true
  | _ => false

theorem removeSubscriberS_subscribers (s : StateStore) (p : String) (c' : Nat) :
    (removeSubscriberS s p c').subscribers =
      match alookup s.subscribers p with
      | none => s.subscribers
      | some l =>
        if l.erase c' = [] then s.subscribers.filter fun e => ¬ e.1 = p
        else s.subscribers.map fun e => if e.1 = p then (e.1, e.2.erase c') else e := rfl

theorem registered_removeSubscriberS {s : StateStore} {p : String} {c c' : Nat}
    (h : c ∈ registered (removeSubscriberS s p c')) : c ∈ registered s := by
  unfold registered at h ⊢
  rw [removeSubscriberS_subscribers] at h
  cases hl : alookup s.subscribers p with
  | none => rw [hl] at h; exact h
  | some l =>
    rw [hl] at h
    dsimp only at h
    by_cases he : l.erase c' = [] <;> simp only [he, if_true, if_false] at h <;>
      simp only [List.mem_flatMap] at h ⊢
    · obtain ⟨e, hmem, hc⟩ := h
      exact ⟨e, List.mem_of_mem_filter hmem, hc⟩
    · obtain ⟨e, hmem, hc⟩ := h
      obtain ⟨e0, hmem0, heq⟩ := List.mem_map.mp hmem
      by_cases hp : e0.1 = p
      · rw [if_pos hp] at heq
        refine ⟨e0, hmem0, ?_⟩
        subst heq
        exact List.mem_of_mem_erase hc
      · rw [if_neg hp] at heq
        subst heq
        exact ⟨e0, hmem0, hc⟩

theorem applyOp_not_registered {s : StateStore} {op : Op} {c : Nat}
    (hop : op.addsSub = false) (h : c ∉ registered s) :
    c ∉ registered (applyOp s op).1 := by
  cases op with
  | osub path c' => simp [Op.addsSub] at hop
  | ounsub path c' =>
    intro hc
    exact h (registered_removeSubscriberS hc)
  | oget path =>
    show c ∉ registered (StateStore.get s path).1
    rw [registered_eq_of_subscribers (get_shape s path).2.1]
    exact h
  | oset path v n =>
    show c ∉ registered (StateStore.set s path v n).1
    rw [registered_eq_of_subscribers (set_shape s path v n).1]
    exact h
  | oupdateV path v n =>
    show c ∉ registered (StateStore.updateV s path v n).1
    rw [registered_eq_of_subscribers (updateV_shape s path v n).1]
    exact h
  | oupdateF path g n =>
    show c ∉ registered (StateStore.updateF s path g n).1
    rw [registered_eq_of_subscribers (updateF_shape s path g n).1]
    exact h
  | oremove path n =>
    show c ∉ registered (StateStore.remove s path n).1
    rw [registered_eq_of_subscribers (remove_shape s path n).1]
    exact h
  | oreset n =>
    show c ∉ registered (StateStore.reset s n).1
    rw [registered_eq_of_subscribers (reset_shape s n).1]
    exact h

theorem applyOps_no_invoke {c : Nat} : ∀ (ops : List Op) (s : StateStore),
    (∀ op ∈ ops, op.addsSub = false) → c ∉ registered s →
      c ∉ (applyOps s ops).2
  | [], _, _, _ => by simp [applyOps]
  | op :: ops, s, hops, h => by
    unfold applyOps
    simp only [List.mem_append]
    intro hc
    rcases hc with hc | hc
    · exact h (applyOp_invoked_registered hc)
    · exact applyOps_no_invoke ops (applyOp s op).1
        (fun o ho => hops o (List.mem_cons_of_mem _ ho))
        (applyOp_not_registered (hops op (List.mem_cons_self _ _)) h) hc

/-! ## Reading as a pure function of the trees -/

/-- What `get` computes, as a pure function of the current live tree, fallback
tree and initial snapshot: a fresh three-way walk followed by the two guarded
reads.  No cache can influence this value. -/
def getPure (d fb init : Val) (path : String) : Option Val :=
  let r := purePathRec path
  let pfi := walk3 r.parentKeys (some d) (some fb) (some init)
  let ov := jsAndIndex pfi.1 r.currentKey
  if ov.isSome then ov else jsAndIndex pfi.2.1 r.currentKey

theorem get_eval {s : StateStore} (path : String)
    (hprop : s.propertyCache = []) (hok : PathCacheOK s) :
    (StateStore.get s path).2 = getPure s.data s.fallbackData s.initialData path := by
  have h1 : (getCachedPathS s path).1.propertyCache = [] := by
    rw [getCachedPathS_propertyCache]; exact hprop
  have h2 : PathCacheOK (getCachedPathS s path).1 := pathCacheOK_getCachedPathS hok
  simp only [StateStore.get, getPure]
  rw [getCachedPathS_snd hok, getCachedPropertyS_snd h1 h2, getCachedPathS_data,
    getCachedPathS_fallbackData, getCachedPathS_initialData]
  split <;> rfl

theorem mem_setAdd_self (l : List Nat) (c : Nat) : c ∈ setAdd l c := by
  unfold setAdd
  by_cases h : c ∈ l <;> simp [h]

theorem addSubscriberS_subsOf_self (s : StateStore) (p : String) (c : Nat) :
    c ∈ subsOf (addSubscriberS s p c) p := by
  unfold subsOf addSubscriberS
  cases hl : alookup s.subscribers p with
  | none =>
    dsimp only
    rw [alookup_append, hl]
    simp [alookup]
  | some l =>
    dsimp only
    rw [alookup_mapAt s.subscribers p p (fun d => setAdd d c), if_pos rfl, hl]
    simpa using mem_setAdd_self l c

/-! ## Segment-list decomposition of a path -/

theorem splitDotsAux_ne_nil : ∀ (cs acc : List Char), splitDotsAux cs acc ≠ []
  | [], acc => by simp [splitDotsAux]
  | c :: cs, acc => by
    unfold splitDotsAux
    by_cases h : c = '.' <;> simp only [h, if_true, if_false]
    · simp
    · exact splitDotsAux_ne_nil cs (c :: acc)

theorem splitDots_ne_nil (s : String) : splitDots s ≠ [] := by
  unfold splitDots
  intro h
  exact splitDotsAux_ne_nil s.data [] (List.map_eq_nil_iff.mp h)

theorem dropLast_append_getLastD {α : Type} (d : α) :
    ∀ (l : List α), l ≠ [] → l.dropLast ++ [l.getLastD d] = l
  | [], h => absurd rfl h
  | [a], _ => rfl
  | a :: b :: t, _ => by
    have ih := dropLast_append_getLastD d (b :: t) (by simp)
    simp only [List.dropLast_cons₂, List.getLastD_cons, List.cons_append]
    rw [List.getLastD_cons] at ih
    exact congrArg (a :: ·) ih

theorem parentKeys_append_currentKey (path : String) :
    (purePathRec path).parentKeys ++ [(purePathRec path).currentKey] = splitDots path := by
  unfold purePathRec
  exact dropLast_append_getLastD "" (splitDots path) (splitDots_ne_nil path)

/-! ## The keyed-collection store (`CreateMapStore`) -/

/-- The parsed-path record of the keyed variant: the first segment is the
collection key, `currentKey` is the empty-string sentinel when the path is
exactly the map key. -/
structure MPathRec where
  mapKey : String
  parentKeys : List String
  parentPaths : List String
  currentKey : String
deriving Repr, DecidableEq

/-- The pure content of `CreateMapStore.getCachedPath`. -/
def pureMPathRec (path : String) : MPathRec :=
  let keys := splitDots path
  let ap := allPathsOf keys
  { mapKey := keys.headD ""
    parentKeys := (keys.drop 1).dropLast
    parentPaths := if ap.length > 1 then ap.dropLast else []
    currentKey := if keys.length = 1 then "" else keys.getLastD "" }

/-- The per-instance state of a `CreateMapStore`: an insertion-ordered keyed
collection plus the same caches and registry as the single-object store, the
two count-broadcast subscriber sets, and the cached key list. -/
structure MapStore where
  data : List (String × Val)
  initialData : List (String × Val)
  fallbackData : Val
  pathCache : List (String × MPathRec)
  propertyCache : List (String × (Option Val × Option Val × Option Val))
  dependencyCache : List (String × List String)
  subscribers : List (String × List Nat)
  keysSubscribers : List Nat
  sizeSubscribers : List Nat
  cachedKeys : List String

/-- Entry-wise deep clone of a keyed collection (`deepClone` on a `Map`). -/
def cloneEntries (m : List (String × Val)) : List (String × Val) :=
  m.map fun e => (e.1, deepClone e.2)

/-- `Map.prototype.set`: update the existing entry in place (keeping its
position) or append a new entry. -/
def mapSet (m : List (String × Val)) (k : String) (v : Val) : List (String × Val) :=
  if (alookup m k).isSome then m.map fun e => if e.1 = k then (e.1, v) else e
  else m ++ [(k, v)]

/-- `Map.prototype.delete`. -/
def mapDelete (m : List (String × Val)) (k : String) : List (String × Val) :=
  m.filter fun e => ¬ e.1 = k

/-- The `CreateMapStore` constructor:
`deepClone(initialData) || new Map()` for both the live collection and the
snapshot, a deep-cloned fallback tree, and an initial `notifyCountSubscribers`
call (which populates `cachedKeys`; there are no subscribers yet). -/
def mkMapStore (init : Option (List (String × Val))) (fb : Option Val) : MapStore :=
  { data := (init.map cloneEntries).getD []
    initialData := (init.map cloneEntries).getD []
    fallbackData := deepClone (jsOrObj fb)
    pathCache := []
    propertyCache := []
    dependencyCache := []
    subscribers := []
    keysSubscribers := []
    sizeSubscribers := []
    cachedKeys := ((init.map cloneEntries).getD []).map Prod.fst }

/-- `CreateMapStore.getFullPath`: `` `${key}${path ? `.${path}` : ''}` ``. -/
def getFullPath (key path : String) : String :=
  if path ≠ "" then key ++ "." ++ path else key

/-- `CreateMapStore.getCachedPath` (default `flush = false`). -/
def getCachedPathM (ms : MapStore) (path : String) : MapStore × MPathRec :=
  match alookup ms.pathCache path with
  | some r => (ms, r)
  | none =>
    let r := pureMPathRec path
    ({ ms with
        pathCache := ms.pathCache ++ [(path, r)]
        dependencyCache := registerDeps ms.dependencyCache r.parentPaths path }, r)

/-- `CreateMapStore.getCachedProperty` (default `flush = false`): the walk
starts from `data.get(mapKey)` / `initialData.get(mapKey)` on the collection
side and from the whole fallback tree on the fallback side; nothing is ever
stored into `propertyCache`. -/
def getCachedPropertyM (ms : MapStore) (path : String) :
    MapStore × (Option Val × Option Val × Option Val) :=
  match alookup ms.propertyCache path with
  | some info => (ms, info)
  | none =>
    let a := getCachedPathM ms path
    (a.1, walk3 a.2.parentKeys (alookup a.1.data a.2.mapKey) (some a.1.fallbackData)
      (alookup a.1.initialData a.2.mapKey))

/-- The callbacks subscribed to a full path in the keyed store. -/
def subsOfM (ms : MapStore) (path : String) : List Nat :=
  (alookup ms.subscribers path).getD []

/-- `CreateMapStore.notifyNestedSubscribers`: notify the path (via `mapKey`
when the path is exactly the map key — the two branches coincide) and every
cached proper-ancestor path. -/
def notifyNestedM (ms : MapStore) (path : String) : MapStore × List Nat :=
  let a := getCachedPathM ms path
  let first := if a.2.mapKey = path then subsOfM a.1 a.2.mapKey else subsOfM a.1 path
  (a.1, first ++ a.2.parentPaths.flatMap (subsOfM a.1))

/-- `CreateMapStore.notifyDependencies`. -/
def notifyDepsM (ms : MapStore) (path : String) : List Nat :=
  ((alookup ms.dependencyCache path).getD []).flatMap (subsOfM ms)

/-- The `notify` block of the keyed store's mutations. -/
def notifyAllM (ms : MapStore) (path : String) : MapStore × List Nat :=
  let a := notifyNestedM ms path
  (a.1, a.2 ++ notifyDepsM a.1 path)

/-- `CreateMapStore.notifyCountSubscribers`: recompute `cachedKeys`, then
invoke every key-list subscriber and every size subscriber. -/
def notifyCount (ms : MapStore) : MapStore × List Nat :=
  ({ ms with cachedKeys := ms.data.map Prod.fst },
    ms.keysSubscribers ++ ms.sizeSubscribers)

/-- `CreateMapStore.getKeys`. -/
def MapStore.getKeys (ms : MapStore) : List String :=
  ms.data.map Prod.fst

/-- `CreateMapStore.getSize`. -/
def MapStore.getSize (ms : MapStore) : Nat :=
  ms.data.length

/-- `CreateMapStore.get` (the private method behind `key(k).get(path?)`);
`path = none` models the omitted argument.  When `currentKey` is the
empty-string sentinel the whole entry is returned. -/
def MapStore.get (ms : MapStore) (mapKey : String) (path : Option String) :
    MapStore × Option Val :=
  let fullPath := getFullPath mapKey (path.getD "")
  let a := getCachedPathM ms fullPath
  let b := getCachedPropertyM a.1 fullPath
  let originalValue :=
    if a.2.currentKey ≠ "" then jsAndIndex b.2.1 a.2.currentKey else b.2.1
  if originalValue.isSome then (b.1, originalValue)
  else (b.1, jsAndIndex b.2.2.1 a.2.currentKey)

/-- `CreateMapStore.set` (behind `key(k).set(value)`): overwrite or append the
whole entry; per-path notification only under the `notify` flag, but the
key-list/size broadcast whenever the key was previously absent, regardless of
the flag.  Returns the store, the per-path invocation list and the count
invocation list. -/
def MapStore.set (ms : MapStore) (mapKey : String) (value : Val) (notify : Bool) :
    MapStore × List Nat × List Nat :=
  let hasKey := (alookup ms.data mapKey).isSome
  let ms1 := { ms with data := mapSet ms.data mapKey value }
  let step := if notify then notifyAllM ms1 (getFullPath mapKey "") else (ms1, [])
  let step2 := if ¬ hasKey then notifyCount step.1 else (step.1, [])
  (step2.1, step.2, step2.2)

/-- `CreateMapStore.update` (behind `key(k).update(path, fn)`), transformation
form: gated on key existence, then on a truthy located parent container. -/
def MapStore.updateF (ms : MapStore) (mapKey path : String) (g : Option Val → Val)
    (notify : Bool) : MapStore × List Nat :=
  if (alookup ms.data mapKey).isSome then
    let fullPath := getFullPath mapKey path
    let a := getCachedPathM ms fullPath
    let b := getCachedPropertyM a.1 fullPath
    if truthyO b.2.1 then
      let ms3 :=
        { b.1 with
            data :=
              b.1.data.map fun e =>
                if e.1 = a.2.mapKey then
                  (e.1, writeAt e.2 a.2.parentKeys
                    (fun parent => parent.setKey a.2.currentKey (g (parent.index a.2.currentKey))))
                else e }
      if notify then notifyAllM ms3 fullPath else (ms3, [])
    else (b.1, [])
  else (ms, [])

/-- `CreateMapStore.update`, plain-value form. -/
def MapStore.updateV (ms : MapStore) (mapKey path : String) (value : Val)
    (notify : Bool) : MapStore × List Nat :=
  if (alookup ms.data mapKey).isSome then
    let fullPath := getFullPath mapKey path
    let a := getCachedPathM ms fullPath
    let b := getCachedPropertyM a.1 fullPath
    if truthyO b.2.1 then
      let ms3 :=
        { b.1 with
            data :=
              b.1.data.map fun e =>
                if e.1 = a.2.mapKey then
                  (e.1, writeAt e.2 a.2.parentKeys
                    (fun parent => parent.setKey a.2.currentKey value))
                else e }
      if notify then notifyAllM ms3 fullPath else (ms3, [])
    else (b.1, [])
  else (ms, [])

/-- `CreateMapStore.remove` (behind `key(k).remove()`): a strict no-op when
the key is absent; otherwise delete the entry, then (under the flag) the
per-path notifications followed by the count broadcast. -/
def MapStore.remove (ms : MapStore) (mapKey : String) (notify : Bool) :
    MapStore × List Nat × List Nat :=
  if (alookup ms.data mapKey).isSome then
    let ms1 := { ms with data := mapDelete ms.data mapKey }
    if notify then
      let a := notifyAllM ms1 mapKey
      let b := notifyCount a.1
      (b.1, a.2, b.2)
    else (ms1, [], [])
  else (ms, [], [])

/-- `CreateMapStore.reset`. -/
def MapStore.reset (ms : MapStore) (notify : Bool) : MapStore × List Nat × List Nat :=
  let ms1 := { ms with data := cloneEntries ms.initialData }
  if notify then
    let inv := ms1.subscribers.flatMap fun e => subsOfM ms1 e.1
    let b := notifyCount ms1
    (b.1, inv, b.2)
  else (ms1, [], [])

/-- `CreateMapStore.clear`: empty the collection in place. -/
def MapStore.clear (ms : MapStore) (notify : Bool) : MapStore × List Nat × List Nat :=
  let ms1 := { ms with data := [] }
  if notify then
    let inv := ms1.subscribers.flatMap fun e => subsOfM ms1 e.1
    let b := notifyCount ms1
    (b.1, inv, b.2)
  else (ms1, [], [])

/-- One public operation on a `CreateMapStore`. -/
inductive MOp where
  | mget (mapKey : String) (path : Option String)
  | mset (mapKey : String) (value : Val) (notify : Bool)
  | mupdateV (mapKey : String) (path : String) (value : Val) (notify : Bool)
  | mupdateF (mapKey : String) (path : String) (g : Option Val → Val) (notify : Bool)
  | mremove (mapKey : String) (notify : Bool)
  | mreset (notify : Bool)
  | mclear (notify : Bool)

/-- Run one keyed-store operation. -/
def applyMOp (ms : MapStore) : MOp → MapStore
  | .mget mapKey path => (MapStore.get ms mapKey path).1
  | .mset mapKey v n => (MapStore.set ms mapKey v n).1
  | .mupdateV mapKey path v n => (MapStore.updateV ms mapKey path v n).1
  | .mupdateF mapKey path g n => (MapStore.updateF ms mapKey path g n).1
  | .mremove mapKey n => (MapStore.remove ms mapKey n).1
  | .mreset n => (MapStore.reset ms n).1
  | .mclear n => (MapStore.clear ms n).1

theorem getCachedPathM_propertyCache (ms : MapStore) (path : String) :
    (getCachedPathM ms path).1.propertyCache = ms.propertyCache := by
  unfold getCachedPathM
  cases alookup ms.pathCache path <;> rfl

theorem getCachedPropertyM_propertyCache (ms : MapStore) (path : String) :
    (getCachedPropertyM ms path).1.propertyCache = ms.propertyCache := by
  unfold getCachedPropertyM
  cases alookup ms.propertyCache path with
  | none => exact getCachedPathM_propertyCache ms path
  | some info => rfl

theorem notifyAllM_fst (ms : MapStore) (path : String) :
    (notifyAllM ms path).1 = (getCachedPathM ms path).1 := rfl

theorem applyMOp_propertyCache (ms : MapStore) (mop : MOp) :
    (applyMOp ms mop).propertyCache = ms.propertyCache := by
  cases mop with
  | mget mapKey path =>
    show (MapStore.get ms mapKey path).1.propertyCache = ms.propertyCache
    unfold MapStore.get
    dsimp only
    split <;> split <;>
      simp [getCachedPropertyM_propertyCache, getCachedPathM_propertyCache]
  | mset mapKey v n =>
    show (MapStore.set ms mapKey v n).1.propertyCache = ms.propertyCache
    unfold MapStore.set
    cases n <;> by_cases h : (alookup ms.data mapKey).isSome <;>
      simp [h, notifyAllM_fst, getCachedPathM_propertyCache, notifyCount]
  | mupdateV mapKey path v n =>
    show (MapStore.updateV ms mapKey path v n).1.propertyCache = ms.propertyCache
    unfold MapStore.updateV
    by_cases h : (alookup ms.data mapKey).isSome
    · simp only [h, if_true]
      by_cases ht : truthyO (getCachedPropertyM (getCachedPathM ms (getFullPath mapKey path)).1
          (getFullPath mapKey path)).2.1 <;>
        cases n <;>
          simp [ht, notifyAllM_fst, getCachedPathM_propertyCache,
            getCachedPropertyM_propertyCache]
    · simp [h]
  | mupdateF mapKey path g n =>
    show (MapStore.updateF ms mapKey path g n).1.propertyCache = ms.propertyCache
    unfold MapStore.updateF
    by_cases h : (alookup ms.data mapKey).isSome
    · simp only [h, if_true]
      by_cases ht : truthyO (getCachedPropertyM (getCachedPathM ms (getFullPath mapKey path)).1
          (getFullPath mapKey path)).2.1 <;>
        cases n <;>
          simp [ht, notifyAllM_fst, getCachedPathM_propertyCache,
            getCachedPropertyM_propertyCache]
    · simp [h]
  | mremove mapKey n =>
    show (MapStore.remove ms mapKey n).1.propertyCache = ms.propertyCache
    unfold MapStore.remove
    by_cases h : (alookup ms.data mapKey).isSome <;>
      cases n <;>
        simp [h, notifyAllM_fst, getCachedPathM_propertyCache, notifyCount]
  | mreset n =>
    show (MapStore.reset ms n).1.propertyCache = ms.propertyCache
    unfold MapStore.reset
    cases n <;> simp [notifyCount]
  | mclear n =>
    show (MapStore.clear ms n).1.propertyCache = ms.propertyCache
    unfold MapStore.clear
    cases n <;> simp [notifyCount]

/-! ## Fallback-walk characterization and the exception-free read -/

/-- `true` when a (possibly absent) tree visits only plain objects along the
walk of `ks` — the shape the data model prescribes for container positions. -/
def objAlong : Option Val → List String → Bool
  | f, [] =>
    match f with
    | none => true
    | some (.vobj _) => true
    | some _ => false
  | f, k :: ks =>
    match f with
    | none => true
    | some (.vobj fields) => objAlong (alookup fields k) ks
    | some _ => false

/-- Indexing chain on a possibly-absent root. -/
def optResolve (f : Option Val) (ks : List String) : Option Val :=
  match f with
  | none => none
  | some v => resolvePath v ks

theorem advChain_objAlong : ∀ (ks : List String) (f : Option Val),
    objAlong f ks = true →
      advChain f ks = optResolve f ks ∧
        (advChain f ks = none ∨ ∃ flds, advChain f ks = some (.vobj flds))
  | [], f, h => by
    cases f with
    | none => exact ⟨rfl, Or.inl rfl⟩
    | some v =>
      cases v with
      | vobj flds => exact ⟨rfl, Or.inr ⟨flds, rfl⟩⟩
      | vnull => simp [objAlong] at h
      | vbool b => simp [objAlong] at h
      | vnum n => simp [objAlong] at h
      | vstr s => simp [objAlong] at h
  | k :: ks, f, h => by
    cases f with
    | none =>
      have ih := advChain_objAlong ks none (by cases ks <;> simp [objAlong])
      simpa [advChain, advOpt, optResolve] using ih
    | some v =>
      cases v with
      | vobj flds =>
        have h' : objAlong (alookup flds k) ks = true := by
          simpa [objAlong] using h
        have ih := advChain_objAlong ks (alookup flds k) h'
        constructor
        · show advChain (advOpt (some (.vobj flds)) k) ks = _
          rw [show advOpt (some (.vobj flds)) k = alookup flds k from rfl]
          rw [ih.1]
          show optResolve (alookup flds k) ks =
            optResolve (some (.vobj flds)) (k :: ks)
          cases hl : alookup flds k with
          | none => simp [optResolve, resolvePath, Val.index, hl]
          | some c => simp [optResolve, resolvePath, Val.index, hl]
        · show advChain (advOpt (some (.vobj flds)) k) ks = none ∨ _
          rw [show advOpt (some (.vobj flds)) k = alookup flds k from rfl]
          exact ih.2
      | vnull => simp [objAlong] at h
      | vbool b => simp [objAlong] at h
      | vnum n => simp [objAlong] at h
      | vstr s => simp [objAlong] at h

/-- JavaScript member access `o[k]` with its exception behavior: reading a
property of `undefined` or `null` throws a `TypeError`. -/
def jsMemberE (o : Option Val) (k : String) : Except String (Option Val) :=
  match o with
  | none => .error "TypeError"
  | some .vnull => .error "TypeError"
  | some v => .ok (v.index k)

/-- `parentProp && parentProp[currentKey]` with exception tracking: the `&&`
guard skips the member access on falsy values, so no `TypeError` can occur. -/
def jsAndIndexE (o : Option Val) (k : String) : Except String (Option Val) :=
  match o with
  | none => .ok none
  | some v => if truthyV v then jsMemberE (some v) k else .ok (some v)

/-- The three-way walk with exception tracking: each member access is guarded
by the source's `!== undefined && !== null` checks. -/
def walk3E : List String → Option Val → Option Val → Option Val →
    Except String (Option Val × Option Val × Option Val)
  | [], p, f, i => .ok (p, f, i)
  | k :: ks, p, f, i =>
    match p with
    | none => .ok (none, f, i)
    | some .vnull => .ok (none, f, i)
    | some v =>
      match jsMemberE (some v) k with
      | .error e => .error e
      | .ok p' => walk3E ks p' (advOpt f k) (advOpt i k)

/-- `get` with exception tracking, mirroring `CreateStateStore.get` and the
walk of `getCachedProperty` access by access. -/
def getE (s : StateStore) (path : String) : Except String (Option Val) :=
  let a := getCachedPathS s path
  let pi :=
    match alookup a.1.propertyCache path with
    | some info => Except.ok info
    | none =>
      let a2 := getCachedPathS a.1 path
      walk3E a2.2.parentKeys (some a2.1.data) (some a2.1.fallbackData) (some a2.1.initialData)
  match pi with
  | .error e => .error e
  | .ok info =>
    match jsAndIndexE info.1 a.2.currentKey with
    | .error e => .error e
    | .ok ov =>
      if ov.isSome then .ok ov
      else jsAndIndexE info.2.1 a.2.currentKey

theorem walk3E_ok : ∀ (ks : List String) (p f i : Option Val),
    walk3E ks p f i = .ok (walk3 ks p f i)
  | [], _, _, _ => rfl
  | _ :: _, none, _, _ => rfl
  | _ :: _, some .vnull, _, _ => rfl
  | k :: ks, some (.vbool b), f, i => walk3E_ok ks _ _ _
  | k :: ks, some (.vnum n), f, i => walk3E_ok ks _ _ _
  | k :: ks, some (.vstr st), f, i => walk3E_ok ks _ _ _
  | k :: ks, some (.vobj l), f, i => walk3E_ok ks _ _ _

theorem jsAndIndexE_ok (o : Option Val) (k : String) :
    jsAndIndexE o k = .ok (jsAndIndex o k) := by
  cases o with
  | none => rfl
  | some v =>
    show (if truthyV v then jsMemberE (some v) k else .ok (some v)) =
      .ok (if truthyV v then v.index k else some v)
    by_cases h : truthyV v
    · rw [if_pos h, if_pos h]
      cases v <;> first | rfl | (simp [truthyV] at h)
    · rw [if_neg h, if_neg h]

theorem getE_ok (s : StateStore) (path : String) :
    getE s path = .ok (StateStore.get s path).2 := by
  unfold getE StateStore.get getCachedPropertyS
  dsimp only
  cases alookup (getCachedPathS s path).1.propertyCache path with
  | some info =>
    dsimp only
    rw [jsAndIndexE_ok]
    dsimp only
    split <;> simp [jsAndIndexE_ok]
  | none =>
    dsimp only
    rw [walk3E_ok]
    dsimp only
    rw [jsAndIndexE_ok]
    dsimp only
    split <;> simp [jsAndIndexE_ok]

/-! ## Notification membership -/

theorem subsOf_congr {s t : StateStore} (h : t.subscribers = s.subscribers)
    {Q : String} {c : Nat} (hc : c ∈ subsOf s Q) : c ∈ subsOf t Q := by
  unfold subsOf at hc ⊢
  rw [h]
  exact hc

theorem depsOf_congr {s t : StateStore} (h : t.dependencyCache = s.dependencyCache)
    {P Q : String} (hq : Q ∈ depsOf s P) : Q ∈ depsOf t P := by
  unfold depsOf at hq ⊢
  rw [h]
  exact hq

theorem notifyAll_mem_anc {s3 : StateStore} {P Q : String} {c : Nat}
    (hok3 : PathCacheOK s3)
    (hQ : Q = P ∨ Q ∈ (purePathRec P).parentPaths)
    (hc : c ∈ subsOf s3 Q) :
    c ∈ (notifyAll s3 P).2 := by
  unfold notifyAll notifyNested
  dsimp only
  simp only [List.mem_append]
  left
  have hr : (getCachedPathS s3 P).2 = purePathRec P := getCachedPathS_snd hok3
  have hs : c ∈ subsOf (getCachedPathS s3 P).1 Q :=
    subsOf_congr (getCachedPathS_subscribers s3 P) hc
  rcases hQ with h | h
  · left
    subst h
    exact hs
  · right
    rw [hr]
    exact List.mem_flatMap.mpr ⟨Q, h, hs⟩

theorem notifyAll_mem_dep {s3 : StateStore} {P Q : String} {c : Nat}
    (hQ : Q ∈ depsOf s3 P) (hc : c ∈ subsOf s3 Q) :
    c ∈ (notifyAll s3 P).2 := by
  unfold notifyAll notifyDeps
  dsimp only
  simp only [List.mem_append]
  right
  have hq1 : Q ∈ depsOf (notifyNested s3 P).1 P := by
    show Q ∈ depsOf (getCachedPathS s3 P).1 P
    exact depsOf_getCachedPathS_mono P hQ
  have hs : c ∈ subsOf (notifyNested s3 P).1 Q := by
    show c ∈ subsOf (getCachedPathS s3 P).1 Q
    exact subsOf_congr (getCachedPathS_subscribers s3 P) hc
  exact List.mem_flatMap.mpr ⟨Q, hq1, hs⟩

theorem get_fst (s : StateStore) (path : String) :
    (StateStore.get s path).1 = (getCachedPropertyS (getCachedPathS s path).1 path).1 := by
  unfold StateStore.get
  dsimp only
  split <;> rfl

/-! ## Claim theorems -/

/-- C1 (status: code_bug).  Failing input: on a store constructed with no
initial data, `set("a.b.c", 1)` materializes the missing ancestors using the
joined prefix strings `parentPaths = ["a", "a.b"]` as object keys — the live
tree becomes `{a: {"a.b": {c: 1}}}` — so the subsequent `get("a.b.c")`, which
walks the per-segment `parentKeys = ["a", "b"]`, finds nothing and returns
`undefined` instead of `1`.  This theorem evaluates the code at that input. -/
theorem set_get_roundtrip_fails_on_missing_ancestors :
    (((mkStore none none).set "a.b.c" (.vnum 1) true).1.get "a.b.c").2 = none ∧
    ((mkStore none none).set "a.b.c" (.vnum 1) true).1.data =
      .vobj [("a", .vobj [("a.b", .vobj [("c", .vnum 1)])])] ∧
    resolvePath ((mkStore none none).set "a.b.c" (.vnum 1) true).1.data
      ["a", "b", "c"] = none ∧
    (((mkStore none none).set "a.b" (.vnum 1) true).1.get "a.b").2 = some (.vnum 1) :=
  ⟨rfl, rfl, rfl, rfl⟩

/-- C6 (status: confirmed).  When the located parent container of `P` is
absent from the live tree (the walk of `parentKeys` yields `undefined`),
`update(P, v)` — in both its plain-value and transformation forms — leaves
the live tree untouched, invokes no subscriber, and materializes nothing. -/
theorem update_noop_on_absent_parent (s : StateStore) (P : String) (v : Val)
    (g : Option Val → Val) (n1 n2 : Bool)
    (hprop : s.propertyCache = []) (hok : PathCacheOK s)
    (habs : resolvePath s.data (purePathRec P).parentKeys = none) :
    ((StateStore.updateV s P v n1).1.data = s.data ∧
      (StateStore.updateV s P v n1).1.subscribers = s.subscribers ∧
      (StateStore.updateV s P v n1).2 = []) ∧
    ((StateStore.updateF s P g n2).1.data = s.data ∧
      (StateStore.updateF s P g n2).1.subscribers = s.subscribers ∧
      (StateStore.updateF s P g n2).2 = []) := by
  have h1 : (getCachedPathS s P).1.propertyCache = [] := by
    rw [getCachedPathS_propertyCache]
    exact hprop
  have h2 : PathCacheOK (getCachedPathS s P).1 := pathCacheOK_getCachedPathS hok
  have hw : (getCachedPropertyS (getCachedPathS s P).1 P).2.1 = none := by
    rw [getCachedPropertyS_snd h1 h2, walk3_fst, getCachedPathS_data, optChain_resolve]
    exact habs
  have ht : truthyO (getCachedPropertyS (getCachedPathS s P).1 P).2.1 = false := by
    rw [hw]
    rfl
  constructor
  · unfold StateStore.updateV
    dsimp only
    rw [ht]
    simp only [Bool.false_eq_true, if_false]
    exact ⟨by rw [getCachedPropertyS_data, getCachedPathS_data],
      by rw [getCachedPropertyS_subscribers, getCachedPathS_subscribers], trivial⟩
  · unfold StateStore.updateF
    dsimp only
    rw [ht]
    simp only [Bool.false_eq_true, if_false]
    exact ⟨by rw [getCachedPropertyS_data, getCachedPathS_data],
      by rw [getCachedPropertyS_subscribers, getCachedPathS_subscribers], trivial⟩

/-- Witness for `update_noop_on_absent_parent` at a concrete input: on the
empty store, updating `"x.y"` (whose parent `"x"` does not exist) changes
nothing and notifies nobody. -/
theorem update_noop_on_absent_parent_witness :
    ((StateStore.updateV (mkStore none none) "x.y" (.vnum 1) true).1.data
        = (mkStore none none).data ∧
      (StateStore.updateV (mkStore none none) "x.y" (.vnum 1) true).1.subscribers
        = (mkStore none none).subscribers ∧
      (StateStore.updateV (mkStore none none) "x.y" (.vnum 1) true).2 = []) ∧
    ((StateStore.updateF (mkStore none none) "x.y" (fun _ => .vnum 2) true).1.data
        = (mkStore none none).data ∧
      (StateStore.updateF (mkStore none none) "x.y" (fun _ => .vnum 2) true).1.subscribers
        = (mkStore none none).subscribers ∧
      (StateStore.updateF (mkStore none none) "x.y" (fun _ => .vnum 2) true).2 = []) :=
  update_noop_on_absent_parent (mkStore none none) "x.y" (.vnum 1) (fun _ => .vnum 2)
    true true rfl (pathCacheOK_mk none none) rfl

/-- C3 (status: confirmed).  Ancestor bubble-up: a subscriber attached to the
mutated path itself or to any of its strict dot-prefixes (the cached
`parentPaths`) is invoked by `set(P, v)` with `notify = true`. -/
theorem set_notifies_ancestors (s : StateStore) (P Q : String) (c : Nat) (v : Val)
    (hok : PathCacheOK s)
    (hQ : Q = P ∨ Q ∈ (purePathRec P).parentPaths)
    (hc : c ∈ subsOf s Q) :
    c ∈ (StateStore.set s P v true).2 := by
  unfold StateStore.set
  dsimp only
  have hok2 : PathCacheOK (getCachedPropertyS (getCachedPathS s P).1 P).1 :=
    pathCacheOK_getCachedPropertyS (pathCacheOK_getCachedPathS hok)
  have hsub : (getCachedPropertyS (getCachedPathS s P).1 P).1.subscribers = s.subscribers := by
    rw [getCachedPropertyS_subscribers, getCachedPathS_subscribers]
  rw [if_pos rfl]
  by_cases ht : truthyO (getCachedPropertyS (getCachedPathS s P).1 P).2.1 <;>
    simp only [ht, Bool.false_eq_true, if_false, if_true] <;>
    exact notifyAll_mem_anc (pathCacheOK_of_eq rfl hok2) hQ (subsOf_congr hsub hc)

/-- Witness for `set_notifies_ancestors`: callback `0` subscribed to `"a"` is
invoked when `"a.b"` is written. -/
theorem set_notifies_ancestors_witness :
    0 ∈ (StateStore.set (addSubscriberS (mkStore none none) "a" 0) "a.b" (.vnum 7) true).2 :=
  set_notifies_ancestors (addSubscriberS (mkStore none none) "a" 0) "a.b" "a" 0 (.vnum 7)
    (by intro e he; simp [addSubscriberS, mkStore, alookup] at he)
    (Or.inr (by decide))
    (by decide)

theorem resolvePath_singleton (v : Val) (ck : String) :
    resolvePath v [ck] = v.index ck := by
  unfold resolvePath
  cases h : v.index ck <;> simp [h, resolvePath]

theorem jsAndIndex_resolve_none {d : Val} {pk : List String} {ck : String}
    (hparent : resolvePath d pk = none ∨
      ∃ u, resolvePath d pk = some u ∧ truthyV u = true)
    (hlive : resolvePath d (pk ++ [ck]) = none) :
    jsAndIndex (resolvePath d pk) ck = none := by
  rw [resolvePath_append] at hlive
  rcases hparent with hpn | ⟨u, hu, htu⟩
  · rw [hpn]
    rfl
  · rw [hu] at hlive ⊢
    dsimp only at hlive
    rw [resolvePath_singleton] at hlive
    show (if truthyV u = true then u.index ck else some u) = none
    rw [if_pos htu, hlive]

/-- C2 (status: confirmed).  Descendant fan-out: once `Q` — a strict
dot-extension of `P`, i.e. `P` is among `Q`'s cached `parentPaths` — has been
resolved at least once (here by a `get`, starting from a store where `Q` is
not yet cached), `Q` is registered in the Dependency Index under `P`, and a
subscriber attached to `Q` is invoked by `set(P, v)` with `notify = true`
even though `Q` itself was never the mutated path. -/
theorem set_notifies_descendants (s : StateStore) (P Q : String) (c : Nat) (v : Val)
    (hfresh : alookup s.pathCache Q = none)
    (hPQ : P ∈ (purePathRec Q).parentPaths) :
    c ∈ (StateStore.set (addSubscriberS (StateStore.get s Q).1 Q c) P v true).2 := by
  have hdep1 : Q ∈ depsOf (StateStore.get s Q).1 P := by
    rw [get_fst]
    exact depsOf_getCachedPropertyS_mono Q (depsOf_getCachedPathS_fresh hfresh hPQ)
  have hdep2 : Q ∈ depsOf (addSubscriberS (StateStore.get s Q).1 Q c) P :=
    depsOf_congr (addSubscriberS_shape (StateStore.get s Q).1 Q c).2.2.2.2.2 hdep1
  have hc2 : c ∈ subsOf (addSubscriberS (StateStore.get s Q).1 Q c) Q :=
    addSubscriberS_subsOf_self (StateStore.get s Q).1 Q c
  generalize hs2 : addSubscriberS (StateStore.get s Q).1 Q c = s2 at hdep2 hc2
  unfold StateStore.set
  dsimp only
  rw [if_pos rfl]
  have hdep3 : Q ∈ depsOf (getCachedPropertyS (getCachedPathS s2 P).1 P).1 P :=
    depsOf_getCachedPropertyS_mono P (depsOf_getCachedPathS_mono P hdep2)
  have hsub3 : (getCachedPropertyS (getCachedPathS s2 P).1 P).1.subscribers
      = s2.subscribers := by
    rw [getCachedPropertyS_subscribers, getCachedPathS_subscribers]
  by_cases ht : truthyO (getCachedPropertyS (getCachedPathS s2 P).1 P).2.1 <;>
    simp only [ht, Bool.false_eq_true, if_false, if_true] <;>
    exact notifyAll_mem_dep (depsOf_congr rfl hdep3) (subsOf_congr hsub3 hc2)

/-- Witness for `set_notifies_descendants`: callback `0` subscribed to
`"a.b"` (which was read once) is invoked when the whole subtree `"a"` is
replaced. -/
theorem set_notifies_descendants_witness :
    0 ∈ (StateStore.set
      (addSubscriberS (StateStore.get (mkStore none none) "a.b").1 "a.b" 0)
      "a" (.vobj [("b", .vnum 9)]) true).2 :=
  set_notifies_descendants (mkStore none none) "a" "a.b" 0 (.vobj [("b", .vnum 9)])
    rfl (by decide)

/-- C4 (status: confirmed).  After any sequence of public operations on a
freshly constructed store, the snapshot field is untouched, `reset(true)`
restores the live tree to exactly the construction-time tree, every read
after the reset agrees with a read on the fresh store, and every currently
subscribed callback (on any path) is invoked by the reset broadcast. -/
theorem reset_restores_initial_snapshot (init fb : Option Val) (ops : List Op) :
    (applyOps (mkStore init fb) ops).1.initialData = (mkStore init fb).initialData ∧
    (StateStore.reset (applyOps (mkStore init fb) ops).1 true).1.data
      = (mkStore init fb).data ∧
    (∀ P, ((StateStore.reset (applyOps (mkStore init fb) ops).1 true).1.get P).2
      = ((mkStore init fb).get P).2) ∧
    (∀ p c, c ∈ subsOf (applyOps (mkStore init fb) ops).1 p →
      c ∈ (StateStore.reset (applyOps (mkStore init fb) ops).1 true).2) := by
  have hfrozen := applyOps_frozen ops (mkStore init fb)
  have hok : PathCacheOK (applyOps (mkStore init fb) ops).1 :=
    pathCacheOK_applyOps ops (mkStore init fb) (pathCacheOK_mk init fb)
  have hdata : (StateStore.reset (applyOps (mkStore init fb) ops).1 true).1.data
      = (mkStore init fb).data := by
    rw [(reset_shape _ true).2.2.2.2.2, hfrozen.1]
    show deepClone (deepClone (jsOrObj init)) = deepClone (jsOrObj init)
    rw [deepClone_eq]
  refine ⟨hfrozen.1, hdata, fun P => ?_, fun p c hc => ?_⟩
  · have hprop : (StateStore.reset (applyOps (mkStore init fb) ops).1 true).1.propertyCache
        = [] := by
      rw [(reset_shape _ true).2.2.2.1, hfrozen.2.2]
      rfl
    have hok2 : PathCacheOK (StateStore.reset (applyOps (mkStore init fb) ops).1 true).1 :=
      pathCacheOK_of_eq (reset_shape _ true).2.2.2.2.1 hok
    rw [get_eval P hprop hok2, get_eval P rfl (pathCacheOK_mk init fb), hdata,
      (reset_shape _ true).2.2.1, hfrozen.2.1, (reset_shape _ true).2.1, hfrozen.1]
  · unfold StateStore.reset
    rw [if_pos rfl]
    unfold subsOf at hc
    cases hl : alookup (applyOps (mkStore init fb) ops).1.subscribers p with
    | none => rw [hl] at hc; simp at hc
    | some l =>
      rw [hl] at hc
      refine List.mem_flatMap.mpr ⟨(p, l), alookup_mem hl, ?_⟩
      show c ∈ notifySubs _ p
      unfold notifySubs subsOf
      rw [show ({ (applyOps (mkStore init fb) ops).1 with
          data := deepClone (applyOps (mkStore init fb) ops).1.initialData } :
            StateStore).subscribers
        = (applyOps (mkStore init fb) ops).1.subscribers from rfl, hl]
      exact hc

/-- Witness for `reset_restores_initial_snapshot`: after overwriting `"x"`
and subscribing callback `3` to `"y"`, `reset(true)` restores the
construction-time tree and invokes callback `3`. -/
theorem reset_restores_initial_snapshot_witness :
    (StateStore.reset (applyOps (mkStore (some (.vobj [("x", .vnum 1)])) none)
        [.oset "x" (.vnum 2) true, .osub "y" 3]).1 true).1.data
      = (mkStore (some (.vobj [("x", .vnum 1)])) none).data ∧
    3 ∈ (StateStore.reset (applyOps (mkStore (some (.vobj [("x", .vnum 1)])) none)
        [.oset "x" (.vnum 2) true, .osub "y" 3]).1 true).2 :=
  ⟨(reset_restores_initial_snapshot (some (.vobj [("x", .vnum 1)])) none
      [.oset "x" (.vnum 2) true, .osub "y" 3]).2.1,
    (reset_restores_initial_snapshot (some (.vobj [("x", .vnum 1)])) none
      [.oset "x" (.vnum 2) true, .osub "y" 3]).2.2.2 "y" 3 (by decide)⟩

/-- C5, counterexample.  With an empty live tree and fallback
`{a: {b: {c: 5}}}`, the path `"a.b.c"` resolves to `undefined` in the live
tree and the fallback defines `5` at it, yet `get("a.b.c")` returns
`undefined`: the `break` in `getCachedProperty` stops the fallback walk as
soon as the live walk dies, so the fallback container is never reached when
an intermediate live ancestor is missing. -/
theorem get_fallback_deep_gap_counterexample :
    resolvePath (mkStore none
        (some (.vobj [("a", .vobj [("b", .vobj [("c", .vnum 5)])])]))).data
      (splitDots "a.b.c") = none ∧
    resolvePath (mkStore none
        (some (.vobj [("a", .vobj [("b", .vobj [("c", .vnum 5)])])]))).fallbackData
      (splitDots "a.b.c") = some (.vnum 5) ∧
    ((mkStore none
        (some (.vobj [("a", .vobj [("b", .vobj [("c", .vnum 5)])])]))).get "a.b.c").2
      = none :=
  ⟨rfl, rfl, rfl⟩

/-- C5, amended (status: corrected).  Restricted to paths whose live walk
never breaks — every proper ancestor of `P`'s parent exists (defined,
non-null) in the live tree — and whose parent value is absent or truthy:
(1) when `P` is `undefined` in the live tree and the fallback tree defines a
value at `P`, `get(P)` returns that fallback value; (2) when additionally the
fallback tree is object-shaped along `P`'s parent keys and defines no value
at `P`, `get(P)` returns `undefined`; and (3) `get` never raises for any path
on any store — every member access in its code path is guarded. -/
theorem get_fallback_amended :
    (∀ (s : StateStore) (P : String) (w : Val),
      s.propertyCache = [] → PathCacheOK s →
      pAlive (some s.data) (purePathRec P).parentKeys = true →
      (resolvePath s.data (purePathRec P).parentKeys = none ∨
        ∃ u, resolvePath s.data (purePathRec P).parentKeys = some u ∧ truthyV u = true) →
      resolvePath s.data (splitDots P) = none →
      resolvePath s.fallbackData (splitDots P) = some w →
      (s.get P).2 = some w) ∧
    (∀ (s : StateStore) (P : String),
      s.propertyCache = [] → PathCacheOK s →
      pAlive (some s.data) (purePathRec P).parentKeys = true →
      (resolvePath s.data (purePathRec P).parentKeys = none ∨
        ∃ u, resolvePath s.data (purePathRec P).parentKeys = some u ∧ truthyV u = true) →
      resolvePath s.data (splitDots P) = none →
      objAlong (some s.fallbackData) (purePathRec P).parentKeys = true →
      resolvePath s.fallbackData (splitDots P) = none →
      (s.get P).2 = none) ∧
    (∀ (s : StateStore) (P : String), getE s P = .ok ((s.get P).2)) := by
  refine ⟨?_, ?_, fun s P => getE_ok s P⟩
  · intro s P w hprop hok halive hparent hlive hfb
    rw [get_eval P hprop hok]
    unfold getPure
    dsimp only
    rw [← parentKeys_append_currentKey P] at hlive hfb
    have hov : jsAndIndex
        (walk3 (purePathRec P).parentKeys (some s.data) (some s.fallbackData)
          (some s.initialData)).1 (purePathRec P).currentKey = none := by
      rw [walk3_fst, optChain_resolve]
      exact jsAndIndex_resolve_none hparent hlive
    rw [hov]
    simp only [Option.isSome_none, Bool.false_eq_true, if_false]
    rw [walk3_snd_of_alive _ _ _ _ halive]
    rw [resolvePath_append] at hfb
    cases hfbp : resolvePath s.fallbackData (purePathRec P).parentKeys with
    | none =>
      rw [hfbp] at hfb
      simp at hfb
    | some fobj =>
      rw [hfbp] at hfb
      dsimp only at hfb
      rw [resolvePath_singleton] at hfb
      have htf : truthyV fobj = true := by
        cases fobj with
        | vobj flds => rfl
        | vnull => simp [Val.index] at hfb
        | vbool b => simp [Val.index] at hfb
        | vnum n => simp [Val.index] at hfb
        | vstr st => simp [Val.index] at hfb
      rw [advChain_of_resolve _ _ _ hfbp]
      show (if truthyV fobj = true then fobj.index (purePathRec P).currentKey else some fobj)
        = some w
      rw [if_pos htf, hfb]
  · intro s P hprop hok halive hparent hlive hobj hfbnone
    rw [get_eval P hprop hok]
    unfold getPure
    dsimp only
    rw [← parentKeys_append_currentKey P] at hlive hfbnone
    have hov : jsAndIndex
        (walk3 (purePathRec P).parentKeys (some s.data) (some s.fallbackData)
          (some s.initialData)).1 (purePathRec P).currentKey = none := by
      rw [walk3_fst, optChain_resolve]
      exact jsAndIndex_resolve_none hparent hlive
    rw [hov]
    simp only [Option.isSome_none, Bool.false_eq_true, if_false]
    rw [walk3_snd_of_alive _ _ _ _ halive]
    have hadv := advChain_objAlong (purePathRec P).parentKeys (some s.fallbackData) hobj
    rw [resolvePath_append] at hfbnone
    cases hfbp : resolvePath s.fallbackData (purePathRec P).parentKeys with
    | none =>
      rw [hadv.1]
      show jsAndIndex (resolvePath s.fallbackData (purePathRec P).parentKeys) _ = none
      rw [hfbp]
      rfl
    | some fobj =>
      rw [hfbp] at hfbnone
      dsimp only at hfbnone
      rw [resolvePath_singleton] at hfbnone
      have hadv1 : advChain (some s.fallbackData) (purePathRec P).parentKeys = some fobj := by
        rw [hadv.1]
        exact hfbp
      rw [hadv1]
      show (if truthyV fobj = true then fobj.index (purePathRec P).currentKey else some fobj)
        = none
      rcases hadv.2 with hnone | ⟨flds, hflds⟩
      · rw [hadv1] at hnone
        exact absurd hnone (by simp)
      · rw [hadv1] at hflds
        cases hflds
        rw [if_pos (show truthyV (Val.vobj flds) = true from rfl)]
        exact hfbnone

/-- Witness for `get_fallback_amended` at concrete inputs: (1) live
`{user: {}}` with fallback `{user: {name: "Guest"}}` makes `get("user.name")`
return `"Guest"`; (2) on the empty store with empty fallback, `get("a.b")`
returns `undefined`; (3) `getE` returns `ok` on the empty store at `"a"`. -/
theorem get_fallback_amended_witness :
    ((mkStore (some (.vobj [("user", .vobj [])]))
        (some (.vobj [("user", .vobj [("name", .vstr "Guest")])]))).get "user.name").2
      = some (.vstr "Guest") ∧
    ((mkStore none none).get "a.b").2 = none ∧
    getE (mkStore none none) "a" = .ok (((mkStore none none).get "a").2) :=
  ⟨get_fallback_amended.1
      (mkStore (some (.vobj [("user", .vobj [])]))
        (some (.vobj [("user", .vobj [("name", .vstr "Guest")])])))
      "user.name" (.vstr "Guest") rfl (pathCacheOK_mk _ _) rfl
      (Or.inr ⟨.vobj [], rfl, rfl⟩) rfl rfl,
    get_fallback_amended.2.1 (mkStore none none) "a.b" rfl (pathCacheOK_mk _ _) rfl
      (Or.inl rfl) rfl rfl rfl,
    get_fallback_amended.2.2 (mkStore none none) "a"⟩

/-- C8 (status: confirmed).  (1) After a callback unsubscribes from `P` it is
gone from `P`'s subscriber set; (2) when it was the last subscriber, `P`'s
entry is removed from the registry entirely; (3) a callback registered
nowhere is never invoked by any sequence of operations that contains no
subscribe; (4) unsubscribing preserves the no-dangling-empty-set invariant of
the registry. -/
theorem unsubscribe_removes_callback_and_entry :
    (∀ (s : StateStore) (P : String) (c : Nat),
      (subsOf s P).Nodup → c ∉ subsOf (removeSubscriberS s P c) P) ∧
    (∀ (s : StateStore) (P : String) (c : Nat),
      alookup s.subscribers P = some [c] →
        alookup (removeSubscriberS s P c).subscribers P = none) ∧
    (∀ (s : StateStore) (c : Nat) (ops : List Op),
      (∀ op ∈ ops, op.addsSub = false) → c ∉ registered s →
        c ∉ (applyOps s ops).2) ∧
    (∀ (s : StateStore) (P : String) (c : Nat),
      (∀ e ∈ s.subscribers, e.2 ≠ []) → (s.subscribers.map Prod.fst).Nodup →
        ∀ e ∈ (removeSubscriberS s P c).subscribers, e.2 ≠ []) := by
  refine ⟨?_, ?_, fun s c ops h1 h2 => applyOps_no_invoke ops s h1 h2, ?_⟩
  · intro s P c hnd
    unfold subsOf at hnd ⊢
    rw [removeSubscriberS_subscribers]
    cases hl : alookup s.subscribers P with
    | none =>
      rw [hl]
      simp
    | some l =>
      rw [hl] at hnd
      dsimp only
      by_cases he : l.erase c = []
      · rw [if_pos he, alookup_filter_self]
        simp
      · rw [if_neg he, alookup_mapAt s.subscribers P P (fun d => d.erase c), if_pos rfl, hl]
        simpa using hnd.not_mem_erase
  · intro s P c hl
    rw [removeSubscriberS_subscribers, hl]
    dsimp only
    rw [if_pos (by simp), alookup_filter_self]
  · intro s P c hne hknd
    rw [removeSubscriberS_subscribers]
    cases hl : alookup s.subscribers P with
    | none => exact hne
    | some l =>
      dsimp only
      by_cases he : l.erase c = []
      · rw [if_pos he]
        intro e hmem
        exact hne e (List.mem_of_mem_filter hmem)
      · rw [if_neg he]
        intro e hmem
        obtain ⟨e0, he0, heq⟩ := List.mem_map.mp hmem
        by_cases hp : e0.1 = P
        · rw [if_pos hp] at heq
          subst heq
          have hl0 : alookup s.subscribers e0.1 = some e0.2 :=
            alookup_of_mem_nodupKeys hknd (by
              have : (e0.1, e0.2) = e0 := rfl
              rw [this]
              exact he0)
          rw [hp, hl] at hl0
          have : e0.2 = l := by
            injection hl0 with h
            exact h.symm
          show e0.2.erase c ≠ []
          rw [this]
          exact he
        · rw [if_neg hp] at heq
          subst heq
          exact hne e0 he0

/-- Witness for `unsubscribe_removes_callback_and_entry` on a concrete store
with one subscriber. -/
theorem unsubscribe_removes_callback_and_entry_witness :
    (1 ∉ subsOf (removeSubscriberS (addSubscriberS (mkStore none none) "p" 1) "p" 1) "p") ∧
    alookup (removeSubscriberS (addSubscriberS (mkStore none none) "p" 1) "p" 1).subscribers
      "p" = none ∧
    (0 ∉ (applyOps (mkStore none none) [.oset "x" (.vnum 1) true]).2) ∧
    (∀ e ∈ (removeSubscriberS (addSubscriberS (mkStore none none) "p" 1) "p" 1).subscribers,
      e.2 ≠ []) :=
  ⟨unsubscribe_removes_callback_and_entry.1 (addSubscriberS (mkStore none none) "p" 1)
      "p" 1 (by decide),
    unsubscribe_removes_callback_and_entry.2.1 (addSubscriberS (mkStore none none) "p" 1)
      "p" 1 rfl,
    unsubscribe_removes_callback_and_entry.2.2.1 (mkStore none none) 0
      [.oset "x" (.vnum 1) true]
      (fun op hop => by rw [List.mem_singleton] at hop; subst hop; rfl)
      (by decide),
    unsubscribe_removes_callback_and_entry.2.2.2 (addSubscriberS (mkStore none none) "p" 1)
      "p" 1 (by decide) (by decide)⟩

theorem getCachedPathM_countSubs (ms : MapStore) (path : String) :
    (getCachedPathM ms path).1.keysSubscribers = ms.keysSubscribers ∧
    (getCachedPathM ms path).1.sizeSubscribers = ms.sizeSubscribers := by
  unfold getCachedPathM
  cases alookup ms.pathCache path <;> exact ⟨rfl, rfl⟩

/-- C9 (status: confirmed, implicit).  The property cache is born empty and
no public operation of either store ever writes to it — `getCachedProperty`
recomputes the three containers on every call — so every read is a fresh walk
of the current live tree: `get` equals the pure function `getPure` of the
store's current trees whenever the property cache is empty and the path cache
is honest. -/
theorem property_cache_never_populated :
    (∀ (init fb : Option Val), (mkStore init fb).propertyCache = []) ∧
    (∀ (s : StateStore) (op : Op), (applyOp s op).1.propertyCache = s.propertyCache) ∧
    (∀ (s : StateStore) (P : String), s.propertyCache = [] → PathCacheOK s →
      (s.get P).2 = getPure s.data s.fallbackData s.initialData P) ∧
    (∀ (init : Option (List (String × Val))) (fb : Option Val),
      (mkMapStore init fb).propertyCache = []) ∧
    (∀ (ms : MapStore) (mop : MOp), (applyMOp ms mop).propertyCache = ms.propertyCache) :=
  ⟨fun _ _ => rfl,
    fun s op => (applyOp_frozen s op).2.2,
    fun s P hprop hok => get_eval P hprop hok,
    fun _ _ => rfl,
    fun ms mop => applyMOp_propertyCache ms mop⟩

/-- Witness for `property_cache_never_populated`: on the empty store, a read
of `"a"` is the pure fresh walk. -/
theorem property_cache_never_populated_witness :
    ((mkStore none none).get "a").2 =
      getPure (mkStore none none).data (mkStore none none).fallbackData
        (mkStore none none).initialData "a" :=
  property_cache_never_populated.2.2.1 (mkStore none none) "a" rfl
    (pathCacheOK_mk none none)

/-- C7 (status: confirmed).  Keyed-collection scenario: on the store
constructed empty, `key("k1").set({v: 1})` makes `getKeys()` return `["k1"]`
and `getSize()` return `1`, and `key("k1").remove()` brings `getSize()` back
to `0`.  In general, `set` on a previously-absent key fires the
key-list/size broadcast, `set` on an existing key does not, and `remove` on
an absent key is a strict no-op. -/
theorem keyed_collection_scenario :
    (MapStore.set (mkMapStore none none) "k1" (.vobj [("v", .vnum 1)]) true).1.getKeys
      = ["k1"] ∧
    (MapStore.set (mkMapStore none none) "k1" (.vobj [("v", .vnum 1)]) true).1.getSize
      = 1 ∧
    (MapStore.remove (MapStore.set (mkMapStore none none) "k1"
        (.vobj [("v", .vnum 1)]) true).1 "k1" true).1.getSize = 0 ∧
    (∀ (ms : MapStore) (k : String) (v : Val) (n : Bool),
      alookup ms.data k = none →
        (MapStore.set ms k v n).2.2 = ms.keysSubscribers ++ ms.sizeSubscribers) ∧
    (∀ (ms : MapStore) (k : String) (v : Val) (n : Bool),
      (alookup ms.data k).isSome = true → (MapStore.set ms k v n).2.2 = []) ∧
    (∀ (ms : MapStore) (k : String) (n : Bool),
      alookup ms.data k = none → MapStore.remove ms k n = (ms, [], [])) := by
  refine ⟨rfl, rfl, rfl, ?_, ?_, ?_⟩
  · intro ms k v n h
    cases n <;>
      simp [MapStore.set, h, notifyCount, notifyAllM_fst,
        (getCachedPathM_countSubs _ _).1, (getCachedPathM_countSubs _ _).2]
  · intro ms k v n h
    cases n <;> simp [MapStore.set, h]
  · intro ms k n h
    unfold MapStore.remove
    rw [h]
    simp

/-- Witness for `keyed_collection_scenario` at concrete inputs: the count
broadcast fires with one keys-subscriber on an absent key, stays silent on an
existing key, and `remove` of a missing key changes nothing. -/
theorem keyed_collection_scenario_witness :
    (MapStore.set { mkMapStore none none with keysSubscribers := [4] } "k1"
        (.vnum 1) true).2.2 = [4] ∧
    (MapStore.set (MapStore.set (mkMapStore none none) "k1" (.vnum 1) true).1
        "k1" (.vnum 2) true).2.2 = [] ∧
    MapStore.remove (mkMapStore none none) "nope" true = (mkMapStore none none, [], []) :=
  ⟨keyed_collection_scenario.2.2.2.1 _ "k1" (.vnum 1) true rfl,
    keyed_collection_scenario.2.2.2.2.1 _ "k1" (.vnum 2) true rfl,
    keyed_collection_scenario.2.2.2.2.2 (mkMapStore none none) "nope" true rfl⟩

/-- C10 (status: confirmed, implicit).  In the keyed store, `set` on a
previously-absent key invokes the key-list and size subscribers even with
`notify = false`: the flag suppresses only the per-path/ancestor/descendant
notifications (which come back empty), not the count broadcast for a newly
added key. -/
theorem set_new_key_broadcasts_despite_notify_false (ms : MapStore) (k : String)
    (v : Val) (h : alookup ms.data k = none) :
    (MapStore.set ms k v false).2.1 = [] ∧
    (MapStore.set ms k v false).2.2 = ms.keysSubscribers ++ ms.sizeSubscribers := by
  constructor
  · simp [MapStore.set, h]
  · simp [MapStore.set, h, notifyCount]

/-- Witness for `set_new_key_broadcasts_despite_notify_false`: with
keys-subscriber `2` and size-subscriber `3` registered, a `notify = false`
`set` of a fresh key invokes exactly them and nothing else. -/
theorem set_new_key_broadcasts_despite_notify_false_witness :
    (MapStore.set
        { mkMapStore none none with keysSubscribers := [2], sizeSubscribers := [3] }
        "k1" (.vnum 1) false).2.1 = [] ∧
    (MapStore.set
        { mkMapStore none none with keysSubscribers := [2], sizeSubscribers := [3] }
        "k1" (.vnum 1) false).2.2 = [2, 3] :=
  set_new_key_broadcasts_despite_notify_false
    { mkMapStore none none with keysSubscribers := [2], sizeSubscribers := [3] }
    "k1" (.vnum 1) rfl

/-! ## Sanity checks -/

/-- The parsed-path record of `"a.b.c"`: `parentPaths` are exactly its strict
dot-prefixes. -/
theorem purePathRec_abc :
    purePathRec "a.b.c" =
      { parentKeys := ["a", "b"], parentPaths := ["a", "a.b"], currentKey := "c" } := by
  decide

/-- The README scenario: after `remove("user.name")`, `get("user.name")`
serves the fallback `"Guest"`. -/
theorem readme_fallback_scenario :
    (((mkStore (some (.vobj [("user", .vobj [("name", .vstr "John"), ("age", .vnum 30)])]))
        (some (.vobj [("user", .vobj [("name", .vstr "Guest"), ("age", .vnum 0)])]))).remove
        "user.name" true).1.get "user.name").2 = some (.vstr "Guest") := by
  rfl

end DevlabStore
